import Mathlib

/-!
Verification of the cached-counter consistency subsystem of the SidesHub
repository: the inline mutators in server/storage.ts (DatabaseStorage.likeProject,
unlikeProject, bookmarkProject, unbookmarkProject, likeCommunityPost,
unlikeCommunityPost, createComment, deleteComment, incrementProjectViews) and
the batch reconciler in server/syncCounts.ts (syncAllCounts, syncProjectCounts,
syncCommunityPostCounts, syncSingleProjectCounts, syncSinglePostCounts).

The relational store is embedded as an explicit state value (structure DB);
each storage method becomes a pure state transformer returning its result
together with the successor state.  SQL relative updates such as
SET like_count = like_count + 1 WHERE id = x become a map over the table that
adjusts every row whose id matches.  Row deletion with a WHERE clause becomes
List.filter with the negated predicate, and rowCount becomes the length of the
list of matching rows.  Cached counter columns are modelled as Int, since the
underlying SQL integer column can in principle go negative under a raw
decrement.
-/

namespace SidesHub

/-- A row of the projects table: identity, owner, payload, the denormalized
counters and the reconciliation timestamp. -/
structure Project where
  id : Nat
  userId : Nat
  title : String
  isFeatured : Bool
  viewCount : Int
  likeCount : Int
  commentCount : Int
  countsLastUpdated : Option Nat
  deriving DecidableEq

/-- A row of the community_posts table. -/
structure CommunityPost where
  id : Nat
  userId : Nat
  title : String
  isPinned : Bool
  likeCount : Int
  commentCount : Int
  countsLastUpdated : Option Nat
  deriving DecidableEq

/-- A row of the project_likes table. -/
structure ProjectLike where
  id : Nat
  projectId : Nat
  userId : Nat
  deriving DecidableEq

/-- A row of the project_bookmarks table. -/
structure ProjectBookmark where
  id : Nat
  projectId : Nat
  userId : Nat
  deriving DecidableEq

/-- A row of the post_likes table. -/
structure PostLike where
  id : Nat
  postId : Nat
  userId : Nat
  deriving DecidableEq

/-- A row of the comments table: a comment attaches to a project or to a
community post through the two nullable parent columns. -/
structure Comment where
  id : Nat
  content : String
  projectId : Option Nat
  postId : Option Nat
  userId : Nat
  deriving DecidableEq

/-- A row of the project_views table: the append-only view log, with an
optional user id (anonymous views carry only an ip address). -/
structure ProjectView where
  id : Nat
  projectId : Nat
  userId : Option Nat
  ipAddress : Option String
  deriving DecidableEq

/-- The relational store.  nextId models the primary-key generator: every
inserted row receives the current nextId and bumps it, so ids are never
reused. -/
structure DB where
  projects : List Project
  communityPosts : List CommunityPost
  projectLikes : List ProjectLike
  projectBookmarks : List ProjectBookmark
  postLikes : List PostLike
  comments : List Comment
  projectViews : List ProjectView
  nextId : Nat
  deriving DecidableEq

/-- The empty database. -/
def DB.init : DB :=
  { projects := [], communityPosts := [], projectLikes := [],
    projectBookmarks := [], postLikes := [], comments := [],
    projectViews := [], nextId := 0 }

/-- Number of project_likes rows for a given project id. -/
def countProjectLikes (db : DB) (pid : Nat) : Nat :=
  (db.projectLikes.filter (fun l => l.projectId = pid)).length

/-- Number of project_views rows for a given project id. -/
def countProjectViews (db : DB) (pid : Nat) : Nat :=
  (db.projectViews.filter (fun v => v.projectId = pid)).length

/-- Number of comments rows whose project_id column is the given project. -/
def countProjectComments (db : DB) (pid : Nat) : Nat :=
  (db.comments.filter (fun c => c.projectId = some pid)).length

/-- Number of post_likes rows for a given community post id. -/
def countPostLikes (db : DB) (qid : Nat) : Nat :=
  (db.postLikes.filter (fun l => l.postId = qid)).length

/-- Number of comments rows whose post_id column is the given post. -/
def countPostComments (db : DB) (qid : Nat) : Nat :=
  (db.comments.filter (fun c => c.postId = some qid)).length

/-- UPDATE projects SET like_count = like_count + d WHERE id = pid. -/
def bumpProjectLikeCount (pid : Nat) (d : Int) (ps : List Project) : List Project :=
  ps.map (fun p => if p.id = pid then { p with likeCount := p.likeCount + d } else p)

/-- UPDATE projects SET comment_count = comment_count + d WHERE id = pid. -/
def bumpProjectCommentCount (pid : Nat) (d : Int) (ps : List Project) : List Project :=
  ps.map (fun p => if p.id = pid then { p with commentCount := p.commentCount + d } else p)

/-- UPDATE community_posts SET like_count = like_count + d WHERE id = qid. -/
def bumpPostLikeCount (qid : Nat) (d : Int) (qs : List CommunityPost) : List CommunityPost :=
  qs.map (fun q => if q.id = qid then { q with likeCount := q.likeCount + d } else q)

/-- UPDATE community_posts SET comment_count = comment_count + d WHERE id = qid. -/
def bumpPostCommentCount (qid : Nat) (d : Int) (qs : List CommunityPost) : List CommunityPost :=
  qs.map (fun q => if q.id = qid then { q with commentCount := q.commentCount + d } else q)

/-- DatabaseStorage.createProject: insert a fresh project row.  The counter
columns start at 0 and countsLastUpdated at NULL, the column defaults given by
the data model of the spec (the schema revision under src predates the counter
columns, so the defaults are taken from the spec). -/
def createProject (title : String) (uid : Nat) (db : DB) : Project × DB :=
  let p : Project :=
    { id := db.nextId, userId := uid, title := title, isFeatured := false,
      viewCount := 0, likeCount := 0, commentCount := 0, countsLastUpdated := none }
  (p, { db with projects := db.projects ++ [p], nextId := db.nextId + 1 })

/-- DatabaseStorage.createCommunityPost: insert a fresh community post row,
counters defaulting to 0 as for createProject. -/
def createCommunityPost (title : String) (uid : Nat) (db : DB) : CommunityPost × DB :=
  let q : CommunityPost :=
    { id := db.nextId, userId := uid, title := title, isPinned := false,
      likeCount := 0, commentCount := 0, countsLastUpdated := none }
  (q, { db with communityPosts := db.communityPosts ++ [q], nextId := db.nextId + 1 })

/-- DatabaseStorage.incrementProjectViews: UPDATE projects
SET view_count = view_count + 1 WHERE id = pid. -/
def incrementProjectViews (pid : Nat) (db : DB) : DB :=
  { db with projects :=
      db.projects.map (fun p => if p.id = pid then { p with viewCount := p.viewCount + 1 } else p) }

/-- Modelled from the spec: storage.trackProjectView is invoked by the
GET /api/projects/:id route in server/routes.ts, but the storage.ts revision
defining it is not under src.  Per the spec, recordView always appends a
ProjectView row (no uniqueness restriction) and increments the cached
viewCount by 1 unconditionally per call; the counter half is exactly
DatabaseStorage.incrementProjectViews, which is present in the source. -/
def trackProjectView (pid : Nat) (uid : Option Nat) (ip : Option String) (db : DB) : DB :=
  let db1 := { db with
    projectViews := db.projectViews ++ [{ id := db.nextId, projectId := pid, userId := uid, ipAddress := ip }],
    nextId := db.nextId + 1 }
  incrementProjectViews pid db1

/-- Modelled from the spec: whether inserting a (projectId, userId) like row
would violate the uniqueness constraint of the project_likes table.  The
current shared/schema.ts (the revision with the counter columns, the
project_views table and this constraint) is not under src; the schema file
present is an earlier revision predating the counters feature.  The spec
states the invariant: at most one like row per (target, user) pair, enforced
as a uniqueness constraint whose violation makes the insert throw. -/
def projectLikeExists (db : DB) (pid uid : Nat) : Bool :=
  db.projectLikes.any (fun l => l.projectId = pid ∧ l.userId = uid)

/-- Modelled from the spec: the analogous uniqueness test for post_likes. -/
def postLikeExists (db : DB) (qid uid : Nat) : Bool :=
  db.postLikes.any (fun l => l.postId = qid ∧ l.userId = uid)

/-- Modelled from the spec: the uniqueness test for project_bookmarks, which
the spec gives the same uniqueness invariant as likes. -/
def projectBookmarkExists (db : DB) (pid uid : Nat) : Bool :=
  db.projectBookmarks.any (fun b => b.projectId = pid ∧ b.userId = uid)

/-- DatabaseStorage.likeProject: try to insert the like row; on success
atomically bump the cached likeCount with a relative update and return true;
a constraint violation is caught and surfaced as false with nothing written. -/
def likeProject (pid uid : Nat) (db : DB) : Bool × DB :=
  if projectLikeExists db pid uid then
    (false, db)
  else
    (true, { db with
      projectLikes := db.projectLikes ++ [{ id := db.nextId, projectId := pid, userId := uid }],
      nextId := db.nextId + 1,
      projects := bumpProjectLikeCount pid 1 db.projects })

/-- DatabaseStorage.unlikeProject: DELETE the matching like rows; only when
rowCount is positive decrement the cached likeCount by 1 and return true. -/
def unlikeProject (pid uid : Nat) (db : DB) : Bool × DB :=
  let deleted := db.projectLikes.filter (fun l => l.projectId = pid ∧ l.userId = uid)
  let db1 := { db with
    projectLikes := db.projectLikes.filter (fun l => ¬(l.projectId = pid ∧ l.userId = uid)) }
  if 0 < deleted.length then
    (true, { db1 with projects := bumpProjectLikeCount pid (-1) db1.projects })
  else
    (false, db1)

/-- DatabaseStorage.bookmarkProject: insert the bookmark row, false on a
uniqueness violation; no cached counter exists for bookmarks. -/
def bookmarkProject (pid uid : Nat) (db : DB) : Bool × DB :=
  if projectBookmarkExists db pid uid then
    (false, db)
  else
    (true, { db with
      projectBookmarks := db.projectBookmarks ++ [{ id := db.nextId, projectId := pid, userId := uid }],
      nextId := db.nextId + 1 })

/-- DatabaseStorage.unbookmarkProject: DELETE the matching bookmark rows and
report whether any row was deleted; no counter is touched. -/
def unbookmarkProject (pid uid : Nat) (db : DB) : Bool × DB :=
  let deleted := db.projectBookmarks.filter (fun b => b.projectId = pid ∧ b.userId = uid)
  let db1 := { db with
    projectBookmarks := db.projectBookmarks.filter (fun b => ¬(b.projectId = pid ∧ b.userId = uid)) }
  (0 < deleted.length, db1)

/-- DatabaseStorage.likeCommunityPost: as likeProject, on post_likes and the
cached likeCount of community_posts. -/
def likeCommunityPost (qid uid : Nat) (db : DB) : Bool × DB :=
  if postLikeExists db qid uid then
    (false, db)
  else
    (true, { db with
      postLikes := db.postLikes ++ [{ id := db.nextId, postId := qid, userId := uid }],
      nextId := db.nextId + 1,
      communityPosts := bumpPostLikeCount qid 1 db.communityPosts })

/-- DatabaseStorage.unlikeCommunityPost: as unlikeProject, on post_likes. -/
def unlikeCommunityPost (qid uid : Nat) (db : DB) : Bool × DB :=
  let deleted := db.postLikes.filter (fun l => l.postId = qid ∧ l.userId = uid)
  let db1 := { db with
    postLikes := db.postLikes.filter (fun l => ¬(l.postId = qid ∧ l.userId = uid)) }
  if 0 < deleted.length then
    (true, { db1 with communityPosts := bumpPostLikeCount qid (-1) db1.communityPosts })
  else
    (false, db1)

/-- The InsertComment input shape of DatabaseStorage.createComment. -/
structure InsertComment where
  content : String
  projectId : Option Nat
  postId : Option Nat
  userId : Nat
  deriving DecidableEq

/-- DatabaseStorage.createComment: insert the comment row and return it; then
the counter update branches on projectId first (if comment.projectId, else if
comment.postId), incrementing exactly the matching cached commentCount, or
none when neither parent column is set. -/
def createComment (ic : InsertComment) (db : DB) : Comment × DB :=
  let c : Comment :=
    { id := db.nextId, content := ic.content, projectId := ic.projectId,
      postId := ic.postId, userId := ic.userId }
  let db1 := { db with comments := db.comments ++ [c], nextId := db.nextId + 1 }
  match ic.projectId with
  | some pid => (c, { db1 with projects := bumpProjectCommentCount pid 1 db1.projects })
  | none =>
    match ic.postId with
    | some qid => (c, { db1 with communityPosts := bumpPostCommentCount qid 1 db1.communityPosts })
    | none => (c, db1)

/-- DatabaseStorage.deleteComment: SELECT the comment by (id, userId) to
capture its parent columns; absent a match return false; otherwise DELETE with
the same WHERE clause and, when rowCount is positive, decrement the captured
parent counter, branching on projectId first. -/
def deleteComment (i uid : Nat) (db : DB) : Bool × DB :=
  match db.comments.find? (fun c => c.id = i ∧ c.userId = uid) with
  | none => (false, db)
  | some c0 =>
    let deleted := db.comments.filter (fun c => c.id = i ∧ c.userId = uid)
    let db1 := { db with comments := db.comments.filter (fun c => ¬(c.id = i ∧ c.userId = uid)) }
    if 0 < deleted.length then
      match c0.projectId with
      | some pid => (true, { db1 with projects := bumpProjectCommentCount pid (-1) db1.projects })
      | none =>
        match c0.postId with
        | some qid => (true, { db1 with communityPosts := bumpPostCommentCount qid (-1) db1.communityPosts })
        | none => (true, db1)
    else
      (false, db1)

/-- syncSingleProjectCounts (server/syncCounts.ts): recompute the three
counters of one project from the normalized tables and overwrite the cached
columns together with countsLastUpdated in one UPDATE. -/
def syncSingleProjectCounts (now pid : Nat) (db : DB) : DB :=
  { db with projects := db.projects.map (fun p =>
      if p.id = pid then
        { p with
          viewCount := (countProjectViews db pid : Int),
          likeCount := (countProjectLikes db pid : Int),
          commentCount := (countProjectComments db pid : Int),
          countsLastUpdated := some now }
      else p) }

/-- syncSinglePostCounts (server/syncCounts.ts): the community post analogue,
recomputing likeCount and commentCount. -/
def syncSinglePostCounts (now qid : Nat) (db : DB) : DB :=
  { db with communityPosts := db.communityPosts.map (fun q =>
      if q.id = qid then
        { q with
          likeCount := (countPostLikes db qid : Int),
          commentCount := (countPostComments db qid : Int),
          countsLastUpdated := some now }
      else q) }

/-- The per-project loop body of syncProjectCounts.  A failure oracle stands
for the per-entity database errors the code can encounter: when the oracle
fires for an entity the iteration throws, which in the source aborts the whole
loop (the try/catch around the loop rethrows), leaving the entities already
visited updated and the rest untouched.  The result carries the thrown error
message (none on success), the updatedCount, and the resulting store. -/
def syncProjectsLoop (failP : Nat → Bool) (now : Nat) :
    List Nat → DB → Option String × Nat × DB
  | [], db => (none, 0, db)
  | i :: rest, db =>
    if failP i then
      (some ("Error syncing project " ++ toString i), 0, db)
    else
      let r := syncProjectsLoop failP now rest (syncSingleProjectCounts now i db)
      (r.1, r.2.1 + 1, r.2.2)

/-- syncProjectCounts (server/syncCounts.ts): enumerate all project ids, then
run the recompute loop over them. -/
def syncProjectCounts (failP : Nat → Bool) (now : Nat) (db : DB) :
    Option String × Nat × DB :=
  syncProjectsLoop failP now (db.projects.map (fun p => p.id)) db

/-- The per-post loop body of syncCommunityPostCounts, with the same throwing
discipline as syncProjectsLoop. -/
def syncPostsLoop (failQ : Nat → Bool) (now : Nat) :
    List Nat → DB → Option String × Nat × DB
  | [], db => (none, 0, db)
  | i :: rest, db =>
    if failQ i then
      (some ("Error syncing post " ++ toString i), 0, db)
    else
      let r := syncPostsLoop failQ now rest (syncSinglePostCounts now i db)
      (r.1, r.2.1 + 1, r.2.2)

/-- syncCommunityPostCounts (server/syncCounts.ts). -/
def syncCommunityPostCounts (failQ : Nat → Bool) (now : Nat) (db : DB) :
    Option String × Nat × DB :=
  syncPostsLoop failQ now (db.communityPosts.map (fun q => q.id)) db

/-- The summary record returned by syncAllCounts. -/
structure CountSyncResult where
  projectsUpdated : Nat
  postsUpdated : Nat
  errors : List String
  deriving DecidableEq

/-- syncAllCounts (server/syncCounts.ts): run the project phase, then the post
phase, inside one try/catch; a throw from either phase is caught once, pushed
as a single error string, and ends the run, so a projects-phase throw skips
the post phase entirely and leaves projectsUpdated at its initial 0. -/
def syncAllCounts (failP failQ : Nat → Bool) (now : Nat) (db : DB) :
    CountSyncResult × DB :=
  match syncProjectCounts failP now db with
  | (some e, _, s) =>
    ({ projectsUpdated := 0, postsUpdated := 0,
       errors := ["Batch sync failed: " ++ e] }, s)
  | (none, np, s) =>
    match syncCommunityPostCounts failQ now s with
    | (some e, _, s2) =>
      ({ projectsUpdated := np, postsUpdated := 0,
         errors := ["Batch sync failed: " ++ e] }, s2)
    | (none, nq, s2) =>
      ({ projectsUpdated := np, postsUpdated := nq, errors := [] }, s2)

/-- The failure oracle of a run in which every per-entity recomputation
succeeds. -/
def noFail : Nat → Bool := fun _ => false

/-- The cached counter columns of every project row, paired with the row id:
the observable the idempotence property compares across reconciler runs. -/
def projectCounters (db : DB) : List (Nat × Int × Int × Int) :=
  db.projects.map (fun p => (p.id, p.viewCount, p.likeCount, p.commentCount))

/-- The cached counter columns of every community post row. -/
def postCounters (db : DB) : List (Nat × Int × Int) :=
  db.communityPosts.map (fun q => (q.id, q.likeCount, q.commentCount))

/-- The overwrite a reconciler visit performs on one project row, with the
counts taken from the given store. -/
def projWithCounts (now : Nat) (db : DB) (p : Project) : Project :=
  { p with
    viewCount := (countProjectViews db p.id : Int),
    likeCount := (countProjectLikes db p.id : Int),
    commentCount := (countProjectComments db p.id : Int),
    countsLastUpdated := some now }

/-- The overwrite a reconciler visit performs on one community post row. -/
def postWithCounts (now : Nat) (db : DB) (q : CommunityPost) : CommunityPost :=
  { q with
    likeCount := (countPostLikes db q.id : Int),
    commentCount := (countPostComments db q.id : Int),
    countsLastUpdated := some now }

/-- The consistency invariant the subsystem maintains on reachable stores:
primary keys are below the id generator, foreign keys point below the id
generator, likes are unique per (target, user) pair, comment ids are unique,
every comment has exactly one parent column set, and every cached counter
equals the count of its matching normalized rows. -/
structure Inv (db : DB) : Prop where
  projFresh : ∀ p ∈ db.projects, p.id < db.nextId
  postFresh : ∀ q ∈ db.communityPosts, q.id < db.nextId
  commentFresh : ∀ c ∈ db.comments, c.id < db.nextId
  commentProjRef : ∀ c ∈ db.comments, ∀ pid, c.projectId = some pid → pid < db.nextId
  commentPostRef : ∀ c ∈ db.comments, ∀ qid, c.postId = some qid → qid < db.nextId
  likeRef : ∀ l ∈ db.projectLikes, l.projectId < db.nextId
  postLikeRef : ∀ l ∈ db.postLikes, l.postId < db.nextId
  viewRef : ∀ v ∈ db.projectViews, v.projectId < db.nextId
  likeUniq : ∀ pid uid,
    (db.projectLikes.filter (fun l => l.projectId = pid ∧ l.userId = uid)).length ≤ 1
  postLikeUniq : ∀ qid uid,
    (db.postLikes.filter (fun l => l.postId = qid ∧ l.userId = uid)).length ≤ 1
  commentIdUniq : ∀ i, (db.comments.filter (fun c => c.id = i)).length ≤ 1
  commentParent : ∀ c ∈ db.comments,
    (c.projectId.isSome ∧ c.postId = none) ∨ (c.projectId = none ∧ c.postId.isSome)
  projCounts : ∀ p ∈ db.projects,
    p.viewCount = (countProjectViews db p.id : Int) ∧
    p.likeCount = (countProjectLikes db p.id : Int) ∧
    p.commentCount = (countProjectComments db p.id : Int)
  postCounts : ∀ q ∈ db.communityPosts,
    q.likeCount = (countPostLikes db q.id : Int) ∧
    q.commentCount = (countPostComments db q.id : Int)

/-- The stores reachable from the empty store by the operations of the
subsystem: entity creation, like and unlike on both entity kinds, bookmarking,
view tracking, comment creation and deletion, and the reconciler entry points.
Foreign-key side conditions mirror the references clauses of the schema (an
insert whose referenced parent row is absent is rejected by the store), and
the comment-creation side condition mirrors the parent-exclusivity validation
the spec places at the REST boundary. -/
inductive Reachable : DB → Prop where
  | init : Reachable DB.init
  | stepCreateProject (t : String) (u : Nat) (db : DB) :
      Reachable db → Reachable (createProject t u db).2
  | stepCreatePost (t : String) (u : Nat) (db : DB) :
      Reachable db → Reachable (createCommunityPost t u db).2
  | stepLikeProject (pid uid : Nat) (db : DB) :
      Reachable db → (∃ p ∈ db.projects, p.id = pid) →
      Reachable (likeProject pid uid db).2
  | stepUnlikeProject (pid uid : Nat) (db : DB) :
      Reachable db → Reachable (unlikeProject pid uid db).2
  | stepLikePost (qid uid : Nat) (db : DB) :
      Reachable db → (∃ q ∈ db.communityPosts, q.id = qid) →
      Reachable (likeCommunityPost qid uid db).2
  | stepUnlikePost (qid uid : Nat) (db : DB) :
      Reachable db → Reachable (unlikeCommunityPost qid uid db).2
  | stepBookmark (pid uid : Nat) (db : DB) :
      Reachable db → Reachable (bookmarkProject pid uid db).2
  | stepUnbookmark (pid uid : Nat) (db : DB) :
      Reachable db → Reachable (unbookmarkProject pid uid db).2
  | stepTrackView (pid : Nat) (uid : Option Nat) (ip : Option String) (db : DB) :
      Reachable db → (∃ p ∈ db.projects, p.id = pid) →
      Reachable (trackProjectView pid uid ip db)
  | stepCreateComment (ic : InsertComment) (db : DB) :
      Reachable db →
      ((∃ pid, ic.projectId = some pid ∧ ic.postId = none ∧
          ∃ p ∈ db.projects, p.id = pid) ∨
       (ic.projectId = none ∧ ∃ qid, ic.postId = some qid ∧
          ∃ q ∈ db.communityPosts, q.id = qid)) →
      Reachable (createComment ic db).2
  | stepDeleteComment (i uid : Nat) (db : DB) :
      Reachable db → Reachable (deleteComment i uid db).2
  | stepSyncProject (now pid : Nat) (db : DB) :
      Reachable db → Reachable (syncSingleProjectCounts now pid db)
  | stepSyncPost (now qid : Nat) (db : DB) :
      Reachable db → Reachable (syncSinglePostCounts now qid db)
  | stepSyncAll (f g : Nat → Bool) (now : Nat) (db : DB) :
      Reachable db → Reachable (syncAllCounts f g now db).2

/-- At most one like row per (target, user) pair, for both like tables. -/
def likeRowsUnique (db : DB) : Prop :=
  (∀ pid uid,
    (db.projectLikes.filter (fun l => l.projectId = pid ∧ l.userId = uid)).length ≤ 1) ∧
  (∀ qid uid,
    (db.postLikes.filter (fun l => l.postId = qid ∧ l.userId = uid)).length ≤ 1)

/-- A concrete store used by the witnesses: one project (id 0, liked by
user 3), one community post (id 1, liked by user 3), one comment (id 4,
owned by user 3) on each entity. -/
def wdb : DB :=
  (createComment { content := "d", projectId := none, postId := some 1, userId := 3 }
    (createComment { content := "c", projectId := some 0, postId := none, userId := 3 }
      (likeCommunityPost 1 3
        (likeProject 0 3
          (createCommunityPost "s" 7 (createProject "t" 7 DB.init).2).2).2).2).2).2

/-- A concrete store exhibiting counter drift: two projects whose cached
likeCount is 5 while no like row exists. -/
def driftDb : DB :=
  { projects :=
      [{ id := 0, userId := 7, title := "a", isFeatured := false,
         viewCount := 0, likeCount := 5, commentCount := 0, countsLastUpdated := none },
       { id := 1, userId := 7, title := "b", isFeatured := false,
         viewCount := 0, likeCount := 5, commentCount := 0, countsLastUpdated := none }],
    communityPosts := [], projectLikes := [], projectBookmarks := [],
    postLikes := [], comments := [], projectViews := [], nextId := 2 }

/-- The value of the single project row of wdb after a reconciler visit at
time 9; used to instantiate the convergence theorem concretely. -/
def wProjSynced : Project :=
  { id := 0, userId := 7, title := "t", isFeatured := false,
    viewCount := 0, likeCount := 1, commentCount := 1, countsLastUpdated := some 9 }

/-- The value of the single project row of wdb itself (one like, one
comment, no view, never reconciled). -/
def wProj1 : Project :=
  { id := 0, userId := 7, title := "t", isFeatured := false,
    viewCount := 0, likeCount := 1, commentCount := 1, countsLastUpdated := none }

lemma length_filter_split {α : Type} (p q : α → Bool) (l : List α) :
    ((l.filter (fun a => !(q a))).filter p).length
      + (l.filter (fun a => p a && q a)).length
      = (l.filter p).length := by
  induction l with
  | nil => simp
  | cons a t ih =>
    cases hq : q a <;> cases hp : p a <;>
      (try simp [List.filter_cons, hq, hp] at ih ⊢) <;> omega

/-- C9: bookmarkProject and unbookmarkProject only touch the bookmark table;
the projects table (hence every cached counter and every other project field)
and all other tables are left unchanged. -/
theorem bookmark_ops_frame (pid uid : Nat) (db : DB) :
    (bookmarkProject pid uid db).2.projects = db.projects ∧
    (bookmarkProject pid uid db).2.communityPosts = db.communityPosts ∧
    (bookmarkProject pid uid db).2.projectLikes = db.projectLikes ∧
    (bookmarkProject pid uid db).2.postLikes = db.postLikes ∧
    (bookmarkProject pid uid db).2.comments = db.comments ∧
    (bookmarkProject pid uid db).2.projectViews = db.projectViews ∧
    (unbookmarkProject pid uid db).2.projects = db.projects ∧
    (unbookmarkProject pid uid db).2.communityPosts = db.communityPosts ∧
    (unbookmarkProject pid uid db).2.projectLikes = db.projectLikes ∧
    (unbookmarkProject pid uid db).2.postLikes = db.postLikes ∧
    (unbookmarkProject pid uid db).2.comments = db.comments ∧
    (unbookmarkProject pid uid db).2.projectViews = db.projectViews := by
  cases h : projectBookmarkExists db pid uid <;>
    simp [bookmarkProject, unbookmarkProject, h]

/-- C4: every call of the view-tracking operation appends exactly one
ProjectView row (no uniqueness restriction), raises the matching-row count for
the viewed project by exactly 1, and increments the cached viewCount of that
project by exactly 1, unconditionally. -/
theorem track_view_append_and_increment (pid : Nat) (uid : Option Nat)
    (ip : Option String) (db : DB) :
    (trackProjectView pid uid ip db).projectViews
      = db.projectViews ++
        [{ id := db.nextId, projectId := pid, userId := uid, ipAddress := ip }] ∧
    countProjectViews (trackProjectView pid uid ip db) pid
      = countProjectViews db pid + 1 ∧
    (trackProjectView pid uid ip db).projects
      = db.projects.map (fun p =>
          if p.id = pid then { p with viewCount := p.viewCount + 1 } else p) := by
  refine ⟨rfl, ?_, rfl⟩
  simp [trackProjectView, incrementProjectViews, countProjectViews,
    List.filter_append]

/-- C10: createComment inserts and returns the new comment row, then branches
on projectId first: with projectId set only the cached commentCount of that
project is incremented (whatever postId holds), with only postId set only the
cached commentCount of that post, and with neither no counter at all. -/
theorem create_comment_branch_order (ic : InsertComment) (db : DB) :
    (createComment ic db).1
      = { id := db.nextId, content := ic.content, projectId := ic.projectId,
          postId := ic.postId, userId := ic.userId } ∧
    (createComment ic db).2.comments
      = db.comments ++ [(createComment ic db).1] ∧
    (∀ pid, ic.projectId = some pid →
        (createComment ic db).2.projects
          = bumpProjectCommentCount pid 1 db.projects ∧
        (createComment ic db).2.communityPosts = db.communityPosts) ∧
    (ic.projectId = none → ∀ qid, ic.postId = some qid →
        (createComment ic db).2.communityPosts
          = bumpPostCommentCount qid 1 db.communityPosts ∧
        (createComment ic db).2.projects = db.projects) ∧
    (ic.projectId = none → ic.postId = none →
        (createComment ic db).2.projects = db.projects ∧
        (createComment ic db).2.communityPosts = db.communityPosts) := by
  rcases hP : ic.projectId with _ | pid <;> rcases hQ : ic.postId with _ | qid <;>
    simp [createComment, hP, hQ]

/-- Witness for C10: a comment with both parent columns set increments only
the project counter. -/
theorem create_comment_branch_order_check :
    (createComment
        { content := "x", projectId := some 0, postId := some 1, userId := 2 }
        DB.init).2.projects
      = bumpProjectCommentCount 0 1 DB.init.projects ∧
    (createComment
        { content := "x", projectId := some 0, postId := some 1, userId := 2 }
        DB.init).2.communityPosts = DB.init.communityPosts :=
  (create_comment_branch_order
    { content := "x", projectId := some 0, postId := some 1, userId := 2 }
    DB.init).2.2.1 0 rfl

/-- C6: unlikeProject and unlikeCommunityPost decrement the cached likeCount
by 1 exactly when a like row was actually deleted; with no matching row they
return false and leave the store (hence the counter) unchanged. -/
theorem unlike_decrement_guard (pid uid qid : Nat) (db : DB) :
    ((∀ l ∈ db.projectLikes, ¬(l.projectId = pid ∧ l.userId = uid)) →
        unlikeProject pid uid db = (false, db)) ∧
    ((∃ l ∈ db.projectLikes, l.projectId = pid ∧ l.userId = uid) →
        (unlikeProject pid uid db).1 = true ∧
        (unlikeProject pid uid db).2.projects
          = bumpProjectLikeCount pid (-1) db.projects ∧
        (unlikeProject pid uid db).2.projectLikes
          = db.projectLikes.filter (fun l => ¬(l.projectId = pid ∧ l.userId = uid)) ∧
        (unlikeProject pid uid db).2.communityPosts = db.communityPosts) ∧
    ((∀ l ∈ db.postLikes, ¬(l.postId = qid ∧ l.userId = uid)) →
        unlikeCommunityPost qid uid db = (false, db)) ∧
    ((∃ l ∈ db.postLikes, l.postId = qid ∧ l.userId = uid) →
        (unlikeCommunityPost qid uid db).1 = true ∧
        (unlikeCommunityPost qid uid db).2.communityPosts
          = bumpPostLikeCount qid (-1) db.communityPosts ∧
        (unlikeCommunityPost qid uid db).2.postLikes
          = db.postLikes.filter (fun l => ¬(l.postId = qid ∧ l.userId = uid)) ∧
        (unlikeCommunityPost qid uid db).2.projects = db.projects) := by
  refine ⟨?_, ?_, ?_, ?_⟩
  · intro h
    have hnil : db.projectLikes.filter
        (fun l => l.projectId = pid ∧ l.userId = uid) = [] := by
      rw [List.filter_eq_nil_iff]
      intro a ha
      simp only [decide_eq_true_eq]
      exact h a ha
    have hself : db.projectLikes.filter
        (fun l => ¬(l.projectId = pid ∧ l.userId = uid)) = db.projectLikes := by
      rw [List.filter_eq_self]
      intro a ha
      simp only [decide_eq_true_eq]
      exact h a ha
    simp only [unlikeProject]
    rw [hnil, hself]
    rfl
  · rintro ⟨l, hl, hm⟩
    have hmem : l ∈ db.projectLikes.filter
        (fun x => x.projectId = pid ∧ x.userId = uid) :=
      List.mem_filter.mpr ⟨hl, by simp only [decide_eq_true_eq]; exact hm⟩
    have hpos : 0 < (db.projectLikes.filter
        (fun x => x.projectId = pid ∧ x.userId = uid)).length :=
      List.length_pos.mpr (List.ne_nil_of_mem hmem)
    simp only [unlikeProject]
    rw [if_pos hpos]
    exact ⟨rfl, rfl, rfl, rfl⟩
  · intro h
    have hnil : db.postLikes.filter
        (fun l => l.postId = qid ∧ l.userId = uid) = [] := by
      rw [List.filter_eq_nil_iff]
      intro a ha
      simp only [decide_eq_true_eq]
      exact h a ha
    have hself : db.postLikes.filter
        (fun l => ¬(l.postId = qid ∧ l.userId = uid)) = db.postLikes := by
      rw [List.filter_eq_self]
      intro a ha
      simp only [decide_eq_true_eq]
      exact h a ha
    simp only [unlikeCommunityPost]
    rw [hnil, hself]
    rfl
  · rintro ⟨l, hl, hm⟩
    have hmem : l ∈ db.postLikes.filter
        (fun x => x.postId = qid ∧ x.userId = uid) :=
      List.mem_filter.mpr ⟨hl, by simp only [decide_eq_true_eq]; exact hm⟩
    have hpos : 0 < (db.postLikes.filter
        (fun x => x.postId = qid ∧ x.userId = uid)).length :=
      List.length_pos.mpr (List.ne_nil_of_mem hmem)
    simp only [unlikeCommunityPost]
    rw [if_pos hpos]
    exact ⟨rfl, rfl, rfl, rfl⟩

/-- Witness for C6: unliking the liked project of wdb succeeds and decrements
the counter. -/
theorem unlike_decrement_guard_check :
    (unlikeProject 0 3 wdb).1 = true ∧
    (unlikeProject 0 3 wdb).2.projects = bumpProjectLikeCount 0 (-1) wdb.projects ∧
    (unlikeProject 0 3 wdb).2.projectLikes
      = wdb.projectLikes.filter (fun l => ¬(l.projectId = 0 ∧ l.userId = 3)) ∧
    (unlikeProject 0 3 wdb).2.communityPosts = wdb.communityPosts :=
  (unlike_decrement_guard 0 3 1 wdb).2.1 (by decide)

/-- C7: deleteComment looks the comment up by (id, owner) to capture its
parent before deleting; with no owned match it returns false and changes
nothing; on a real deletion it removes exactly the matching rows and
decrements the captured parent counter, branching on projectId first. -/
theorem delete_comment_owner_guard (i uid : Nat) (db : DB) :
    ((∀ c ∈ db.comments, ¬(c.id = i ∧ c.userId = uid)) →
        deleteComment i uid db = (false, db)) ∧
    (∀ c0, db.comments.find? (fun c => c.id = i ∧ c.userId = uid) = some c0 →
        (deleteComment i uid db).1 = true ∧
        (deleteComment i uid db).2.comments
          = db.comments.filter (fun c => ¬(c.id = i ∧ c.userId = uid)) ∧
        (∀ pid, c0.projectId = some pid →
            (deleteComment i uid db).2.projects
              = bumpProjectCommentCount pid (-1) db.projects ∧
            (deleteComment i uid db).2.communityPosts = db.communityPosts) ∧
        (c0.projectId = none → ∀ qid, c0.postId = some qid →
            (deleteComment i uid db).2.communityPosts
              = bumpPostCommentCount qid (-1) db.communityPosts ∧
            (deleteComment i uid db).2.projects = db.projects) ∧
        (c0.projectId = none → c0.postId = none →
            (deleteComment i uid db).2
              = { db with comments :=
                    db.comments.filter (fun c => ¬(c.id = i ∧ c.userId = uid)) })) := by
  constructor
  · intro h
    have hfind : db.comments.find? (fun c => c.id = i ∧ c.userId = uid) = none := by
      rw [List.find?_eq_none]
      intro a ha
      simp only [decide_eq_true_eq]
      exact h a ha
    simp only [deleteComment, hfind]
  · intro c0 hf
    have hc0m : c0 ∈ db.comments := List.mem_of_find?_eq_some hf
    have hc0p : c0.id = i ∧ c0.userId = uid := by
      have := List.find?_some hf
      simpa using this
    have hmem : c0 ∈ db.comments.filter (fun c => c.id = i ∧ c.userId = uid) :=
      List.mem_filter.mpr ⟨hc0m, by simp only [decide_eq_true_eq]; exact hc0p⟩
    have hpos : 0 < (db.comments.filter
        (fun c => c.id = i ∧ c.userId = uid)).length :=
      List.length_pos.mpr (List.ne_nil_of_mem hmem)
    simp only [deleteComment, hf]
    rw [if_pos hpos]
    rcases hp : c0.projectId with _ | pid <;>
      rcases hq : c0.postId with _ | qid <;>
        simp [hp, hq]

/-- Witness for C7: deleting the project comment of wdb by its owner removes
the row and decrements the cached commentCount of project 0. -/
theorem delete_comment_owner_guard_check :
    (deleteComment 4 3 wdb).1 = true ∧
    (deleteComment 4 3 wdb).2.comments
      = wdb.comments.filter (fun c => ¬(c.id = 4 ∧ c.userId = 3)) ∧
    (deleteComment 4 3 wdb).2.projects
      = bumpProjectCommentCount 0 (-1) wdb.projects ∧
    (deleteComment 4 3 wdb).2.communityPosts = wdb.communityPosts := by
  have h := (delete_comment_owner_guard 4 3 wdb).2
    { id := 4, content := "c", projectId := some 0, postId := none, userId := 3 }
    (by decide)
  exact ⟨h.1, h.2.1, (h.2.2.1 0 rfl).1, (h.2.2.1 0 rfl).2⟩

/-- C2: after syncSingleProjectCounts the cached counters of the targeted
project equal the counts of matching rows in project_views, project_likes and
comments, whatever the cached values were before, and countsLastUpdated is
stamped; the normalized tables are untouched, and the analogous statement
holds for syncSinglePostCounts. -/
theorem sync_single_converges (now pid qid : Nat) (db : DB) :
    (∀ p ∈ (syncSingleProjectCounts now pid db).projects, p.id = pid →
        p.viewCount = (countProjectViews db pid : Int) ∧
        p.likeCount = (countProjectLikes db pid : Int) ∧
        p.commentCount = (countProjectComments db pid : Int) ∧
        p.countsLastUpdated = some now) ∧
    (syncSingleProjectCounts now pid db).projectViews = db.projectViews ∧
    (syncSingleProjectCounts now pid db).projectLikes = db.projectLikes ∧
    (syncSingleProjectCounts now pid db).comments = db.comments ∧
    (∀ q ∈ (syncSinglePostCounts now qid db).communityPosts, q.id = qid →
        q.likeCount = (countPostLikes db qid : Int) ∧
        q.commentCount = (countPostComments db qid : Int) ∧
        q.countsLastUpdated = some now) ∧
    (syncSinglePostCounts now qid db).postLikes = db.postLikes ∧
    (syncSinglePostCounts now qid db).comments = db.comments := by
  refine ⟨?_, rfl, rfl, rfl, ?_, rfl, rfl⟩
  · intro p hp hid
    simp only [syncSingleProjectCounts, List.mem_map] at hp
    obtain ⟨r, hr, rfl⟩ := hp
    by_cases h : r.id = pid
    · rw [if_pos h]
      exact ⟨rfl, rfl, rfl, rfl⟩
    · rw [if_neg h] at hid
      exact absurd hid h
  · intro q hq hid
    simp only [syncSinglePostCounts, List.mem_map] at hq
    obtain ⟨r, hr, rfl⟩ := hq
    by_cases h : r.id = qid
    · rw [if_pos h]
      exact ⟨rfl, rfl, rfl⟩
    · rw [if_neg h] at hid
      exact absurd hid h

/-- Witness for C2: the project of wdb after a targeted sync carries exactly
the recomputed counts and the stamp. -/
theorem sync_single_converges_check :
    wProjSynced ∈ (syncSingleProjectCounts 9 0 wdb).projects ∧
    (wProjSynced.viewCount = (countProjectViews wdb 0 : Int) ∧
     wProjSynced.likeCount = (countProjectLikes wdb 0 : Int) ∧
     wProjSynced.commentCount = (countProjectComments wdb 0 : Int) ∧
     wProjSynced.countsLastUpdated = some 9) :=
  ⟨by decide, (sync_single_converges 9 0 1 wdb).1 wProjSynced (by decide) (by decide)⟩

lemma syncProjectsLoop_posts (f : Nat → Bool) (now : Nat) :
    ∀ (ids : List Nat) (db : DB),
      (syncProjectsLoop f now ids db).2.2.communityPosts = db.communityPosts
  | [], _ => rfl
  | i :: rest, db => by
    simp only [syncProjectsLoop]
    by_cases hf : f i = true
    · rw [if_pos hf]
    · rw [if_neg hf]
      exact syncProjectsLoop_posts f now rest (syncSingleProjectCounts now i db)

lemma syncProjectsLoop_fail (f : Nat → Bool) (now : Nat) :
    ∀ (ids : List Nat) (db : DB), (∃ i ∈ ids, f i = true) →
      (syncProjectsLoop f now ids db).1.isSome = true
  | [], _, h => by simp at h
  | i :: rest, db, h => by
    simp only [syncProjectsLoop]
    by_cases hf : f i = true
    · rw [if_pos hf]
      rfl
    · rw [if_neg hf]
      have h2 : ∃ j ∈ rest, f j = true := by
        obtain ⟨j, hj, hfj⟩ := h
        rcases List.mem_cons.mp hj with rfl | hj2
        · exact absurd hfj hf
        · exact ⟨j, hj2, hfj⟩
      exact syncProjectsLoop_fail f now rest (syncSingleProjectCounts now i db) h2

/-- C3, counterexample to the claim as stated: on a store with two stale
projects where recomputing project 0 fails, syncAllCounts records one error
string, but the remaining entity (project 1) is NOT processed: its stale
cached likeCount 5 survives although its true like-row count is 0, and no
countsLastUpdated stamp is written. -/
theorem syncAll_abort_cx :
    ((syncAllCounts (fun i => i == 0) noFail 9 driftDb).1.errors).length = 1 ∧
    (syncAllCounts (fun i => i == 0) noFail 9 driftDb).2.projects.map
      (fun p => (p.id, p.likeCount)) = [(0, 5), (1, 5)] ∧
    countProjectLikes (syncAllCounts (fun i => i == 0) noFail 9 driftDb).2 1 = 0 ∧
    (syncAllCounts (fun i => i == 0) noFail 9 driftDb).2.projects.map
      (fun p => p.countsLastUpdated) = [none, none] := by
  decide

/-- C3 as amended: a failure while recomputing one entity is caught by
syncAllCounts and recorded as a single error string in the returned errors
list, and the run returns normally; but the batch does not continue with the
remaining entities: the rest of the failing phase is abandoned and, for a
projects-phase failure, the posts phase is skipped entirely (projectsUpdated
and postsUpdated are both reported as 0 and no community post is touched). -/
theorem syncAll_error_recorded_aborts (f g : Nat → Bool) (now : Nat) (db : DB)
    (h : ∃ p ∈ db.projects, f p.id = true) :
    ((syncAllCounts f g now db).1.errors).length = 1 ∧
    (syncAllCounts f g now db).1.projectsUpdated = 0 ∧
    (syncAllCounts f g now db).1.postsUpdated = 0 ∧
    (syncAllCounts f g now db).2.communityPosts = db.communityPosts := by
  obtain ⟨p, hp, hf⟩ := h
  have hsome : (syncProjectCounts f now db).1.isSome = true := by
    unfold syncProjectCounts
    exact syncProjectsLoop_fail f now _ db
      ⟨p.id, List.mem_map.mpr ⟨p, hp, rfl⟩, hf⟩
  have hposts : (syncProjectCounts f now db).2.2.communityPosts = db.communityPosts := by
    unfold syncProjectCounts
    exact syncProjectsLoop_posts f now _ db
  rcases hres : syncProjectCounts f now db with ⟨e, n, s⟩
  rcases e with _ | e0
  · rw [hres] at hsome
    simp at hsome
  · rw [hres] at hposts
    simp [syncAllCounts, hres]
    exact hposts

/-- Witness for C3 amended: the concrete drifted store with a failing first
project. -/
theorem syncAll_error_recorded_aborts_check :
    ((syncAllCounts (fun i => i == 1) noFail 9 driftDb).1.errors).length = 1 ∧
    (syncAllCounts (fun i => i == 1) noFail 9 driftDb).1.projectsUpdated = 0 ∧
    (syncAllCounts (fun i => i == 1) noFail 9 driftDb).1.postsUpdated = 0 ∧
    (syncAllCounts (fun i => i == 1) noFail 9 driftDb).2.communityPosts
      = driftDb.communityPosts :=
  syncAll_error_recorded_aborts (fun i => i == 1) noFail 9 driftDb (by decide)

lemma visit_after_single (now i : Nat) (db : DB) (rest : List Nat) (p : Project) :
    (fun r => if r.id ∈ rest then projWithCounts now db r else r)
      ((fun r => if r.id = i then
          { r with
            viewCount := (countProjectViews db i : Int),
            likeCount := (countProjectLikes db i : Int),
            commentCount := (countProjectComments db i : Int),
            countsLastUpdated := some now } else r) p)
    = if p.id ∈ i :: rest then projWithCounts now db p else p := by
  by_cases hpi : p.id = i <;> by_cases hr : p.id ∈ rest <;>
    simp [hpi, hr, projWithCounts, List.mem_cons]

lemma visit_after_single_post (now i : Nat) (db : DB) (rest : List Nat)
    (q : CommunityPost) :
    (fun r => if r.id ∈ rest then postWithCounts now db r else r)
      ((fun r => if r.id = i then
          { r with
            likeCount := (countPostLikes db i : Int),
            commentCount := (countPostComments db i : Int),
            countsLastUpdated := some now } else r) q)
    = if q.id ∈ i :: rest then postWithCounts now db q else q := by
  by_cases hqi : q.id = i <;> by_cases hr : q.id ∈ rest <;>
    simp [hqi, hr, postWithCounts, List.mem_cons]

lemma syncProjectsLoop_noFail_eq (now : Nat) :
    ∀ (ids : List Nat) (db : DB),
    syncProjectsLoop noFail now ids db
      = (none, ids.length,
         { db with projects := db.projects.map (fun p =>
             if p.id ∈ ids then projWithCounts now db p else p) })
  | [], db => by
    simp [syncProjectsLoop]
  | i :: rest, db => by
    have ih := syncProjectsLoop_noFail_eq now rest (syncSingleProjectCounts now i db)
    simp only [syncProjectsLoop]
    rw [if_neg (by simp [noFail]), ih]
    have hproj : (syncSingleProjectCounts now i db).projects.map
          (fun p => if p.id ∈ rest
            then projWithCounts now (syncSingleProjectCounts now i db) p else p)
        = db.projects.map (fun p =>
            if p.id ∈ i :: rest then projWithCounts now db p else p) := by
      rw [show (syncSingleProjectCounts now i db).projects
            = db.projects.map (fun r => if r.id = i then
                { r with
                  viewCount := (countProjectViews db i : Int),
                  likeCount := (countProjectLikes db i : Int),
                  commentCount := (countProjectComments db i : Int),
                  countsLastUpdated := some now } else r) from rfl,
          List.map_map]
      exact List.map_congr_left (fun p _ => visit_after_single now i db rest p)
    refine Prod.ext rfl (Prod.ext (by simp) ?_)
    show ({ syncSingleProjectCounts now i db with projects := _ } : DB) = _
    rw [hproj]
    rfl

lemma syncPostsLoop_noFail_eq (now : Nat) :
    ∀ (ids : List Nat) (db : DB),
    syncPostsLoop noFail now ids db
      = (none, ids.length,
         { db with communityPosts := db.communityPosts.map (fun q =>
             if q.id ∈ ids then postWithCounts now db q else q) })
  | [], db => by
    simp [syncPostsLoop]
  | i :: rest, db => by
    have ih := syncPostsLoop_noFail_eq now rest (syncSinglePostCounts now i db)
    simp only [syncPostsLoop]
    rw [if_neg (by simp [noFail]), ih]
    have hpost : (syncSinglePostCounts now i db).communityPosts.map
          (fun q => if q.id ∈ rest
            then postWithCounts now (syncSinglePostCounts now i db) q else q)
        = db.communityPosts.map (fun q =>
            if q.id ∈ i :: rest then postWithCounts now db q else q) := by
      rw [show (syncSinglePostCounts now i db).communityPosts
            = db.communityPosts.map (fun r => if r.id = i then
                { r with
                  likeCount := (countPostLikes db i : Int),
                  commentCount := (countPostComments db i : Int),
                  countsLastUpdated := some now } else r) from rfl,
          List.map_map]
      exact List.map_congr_left (fun q _ => visit_after_single_post now i db rest q)
    refine Prod.ext rfl (Prod.ext (by simp) ?_)
    show ({ syncSinglePostCounts now i db with communityPosts := _ } : DB) = _
    rw [hpost]
    rfl

/-- The state a failure-free full reconciliation run produces: every project
and every post carries exactly the recomputed counters and the stamp. -/
lemma syncAll_noFail_state (now : Nat) (db : DB) :
    (syncAllCounts noFail noFail now db).2
      = { db with
          projects := db.projects.map (projWithCounts now db),
          communityPosts := db.communityPosts.map (postWithCounts now db) } := by
  have h1 := syncProjectsLoop_noFail_eq now (db.projects.map (fun p => p.id)) db
  have hall : db.projects.map (fun p =>
        if p.id ∈ db.projects.map (fun r => r.id) then projWithCounts now db p else p)
      = db.projects.map (projWithCounts now db) :=
    List.map_congr_left (fun p hp => if_pos (List.mem_map.mpr ⟨p, hp, rfl⟩))
  rw [hall] at h1
  set s1 : DB := { db with projects := db.projects.map (projWithCounts now db) } with hs1
  have h2 := syncPostsLoop_noFail_eq now (s1.communityPosts.map (fun q => q.id)) s1
  have hall2 : s1.communityPosts.map (fun q =>
        if q.id ∈ s1.communityPosts.map (fun r => r.id) then postWithCounts now s1 q else q)
      = s1.communityPosts.map (postWithCounts now s1) :=
    List.map_congr_left (fun q hq => if_pos (List.mem_map.mpr ⟨q, hq, rfl⟩))
  rw [hall2] at h2
  simp only [syncAllCounts, syncProjectCounts, h1, syncCommunityPostCounts, h2]
  rfl

/-- C8: running syncAllCounts twice in a row with no intervening writes to
the normalized tables leaves every cached counter value (project and post)
identical after both runs; the second run overwrites each cache with the same
recomputed values. -/
theorem syncAll_idempotent (now1 now2 : Nat) (db : DB) :
    projectCounters (syncAllCounts noFail noFail now2
        (syncAllCounts noFail noFail now1 db).2).2
      = projectCounters (syncAllCounts noFail noFail now1 db).2 ∧
    postCounters (syncAllCounts noFail noFail now2
        (syncAllCounts noFail noFail now1 db).2).2
      = postCounters (syncAllCounts noFail noFail now1 db).2 := by
  rw [syncAll_noFail_state now1 db, syncAll_noFail_state now2 _]
  constructor <;>
    simp [projectCounters, postCounters, List.map_map, projWithCounts,
      postWithCounts, countProjectViews, countProjectLikes,
      countProjectComments, countPostLikes, countPostComments, Function.comp]

lemma filter_and_of_imp {α : Type} (p q : α → Bool)
    (himp : ∀ a, q a = true → p a = true) (l : List α) :
    l.filter (fun a => p a && q a) = l.filter q := by
  apply List.filter_congr
  intro a _
  cases hq : q a
  · simp
  · simp [himp a hq]

lemma length_filter_le_of_imp {α : Type} (q r : α → Bool)
    (himp : ∀ a, q a = true → r a = true) (l : List α) :
    (l.filter q).length ≤ (l.filter r).length := by
  induction l with
  | nil => simp
  | cons a t ih =>
    cases hq : q a
    · cases hr : r a <;> simp [List.filter_cons, hq, hr] <;> omega
    · have hr := himp a hq
      simp [List.filter_cons, hq, hr]
      omega

lemma inv_init : Inv DB.init := by
  constructor <;> intros <;> simp_all [DB.init]

lemma inv_createProject (t : String) (u : Nat) (db : DB) (h : Inv db) :
    Inv (createProject t u db).2 := by
  refine ⟨?_, ?_, ?_, ?_, ?_, ?_, ?_, ?_, ?_, ?_, ?_, ?_, ?_, ?_⟩
  · intro p hp
    rcases List.mem_append.mp hp with hold | hnew
    · exact Nat.lt_succ_of_lt (h.projFresh p hold)
    · rw [List.mem_singleton.mp hnew]
      exact Nat.lt_succ_self _
  · intro q hq
    exact Nat.lt_succ_of_lt (h.postFresh q hq)
  · intro c hc
    exact Nat.lt_succ_of_lt (h.commentFresh c hc)
  · intro c hc pid hpid
    exact Nat.lt_succ_of_lt (h.commentProjRef c hc pid hpid)
  · intro c hc qid hqid
    exact Nat.lt_succ_of_lt (h.commentPostRef c hc qid hqid)
  · intro l hl
    exact Nat.lt_succ_of_lt (h.likeRef l hl)
  · intro l hl
    exact Nat.lt_succ_of_lt (h.postLikeRef l hl)
  · intro v hv
    exact Nat.lt_succ_of_lt (h.viewRef v hv)
  · exact h.likeUniq
  · exact h.postLikeUniq
  · exact h.commentIdUniq
  · exact h.commentParent
  · intro p hp
    rcases List.mem_append.mp hp with hold | hnew
    · exact h.projCounts p hold
    · rw [List.mem_singleton.mp hnew]
      have hv : db.projectViews.filter (fun v => v.projectId = db.nextId) = [] := by
        rw [List.filter_eq_nil_iff]
        intro v hv
        simp only [decide_eq_true_eq]
        intro heq
        exact absurd (heq ▸ h.viewRef v hv) (Nat.lt_irrefl _)
      have hl : db.projectLikes.filter (fun l => l.projectId = db.nextId) = [] := by
        rw [List.filter_eq_nil_iff]
        intro l hl
        simp only [decide_eq_true_eq]
        intro heq
        exact absurd (heq ▸ h.likeRef l hl) (Nat.lt_irrefl _)
      have hc : db.comments.filter (fun c => c.projectId = some db.nextId) = [] := by
        rw [List.filter_eq_nil_iff]
        intro c hc
        simp only [decide_eq_true_eq]
        intro heq
        exact absurd (h.commentProjRef c hc db.nextId heq) (Nat.lt_irrefl _)
      refine ⟨?_, ?_, ?_⟩ <;>
        simp [createProject, countProjectViews, countProjectLikes,
          countProjectComments, hv, hl, hc]
  · intro q hq
    exact h.postCounts q hq

lemma inv_createPost (t : String) (u : Nat) (db : DB) (h : Inv db) :
    Inv (createCommunityPost t u db).2 := by
  refine ⟨?_, ?_, ?_, ?_, ?_, ?_, ?_, ?_, ?_, ?_, ?_, ?_, ?_, ?_⟩
  · intro p hp
    exact Nat.lt_succ_of_lt (h.projFresh p hp)
  · intro q hq
    rcases List.mem_append.mp hq with hold | hnew
    · exact Nat.lt_succ_of_lt (h.postFresh q hold)
    · rw [List.mem_singleton.mp hnew]
      exact Nat.lt_succ_self _
  · intro c hc
    exact Nat.lt_succ_of_lt (h.commentFresh c hc)
  · intro c hc pid hpid
    exact Nat.lt_succ_of_lt (h.commentProjRef c hc pid hpid)
  · intro c hc qid hqid
    exact Nat.lt_succ_of_lt (h.commentPostRef c hc qid hqid)
  · intro l hl
    exact Nat.lt_succ_of_lt (h.likeRef l hl)
  · intro l hl
    exact Nat.lt_succ_of_lt (h.postLikeRef l hl)
  · intro v hv
    exact Nat.lt_succ_of_lt (h.viewRef v hv)
  · exact h.likeUniq
  · exact h.postLikeUniq
  · exact h.commentIdUniq
  · exact h.commentParent
  · intro p hp
    exact h.projCounts p hp
  · intro q hq
    rcases List.mem_append.mp hq with hold | hnew
    · exact h.postCounts q hold
    · rw [List.mem_singleton.mp hnew]
      have hl : db.postLikes.filter (fun l => l.postId = db.nextId) = [] := by
        rw [List.filter_eq_nil_iff]
        intro l hl
        simp only [decide_eq_true_eq]
        intro heq
        exact absurd (heq ▸ h.postLikeRef l hl) (Nat.lt_irrefl _)
      have hc : db.comments.filter (fun c => c.postId = some db.nextId) = [] := by
        rw [List.filter_eq_nil_iff]
        intro c hc
        simp only [decide_eq_true_eq]
        intro heq
        exact absurd (h.commentPostRef c hc db.nextId heq) (Nat.lt_irrefl _)
      refine ⟨?_, ?_⟩ <;>
        simp [createCommunityPost, countPostLikes, countPostComments, hl, hc]

lemma inv_likeProject (pid uid : Nat) (db : DB) (h : Inv db)
    (hex : ∃ p ∈ db.projects, p.id = pid) : Inv (likeProject pid uid db).2 := by
  by_cases hdup : projectLikeExists db pid uid = true
  · simp only [likeProject, if_pos hdup]
    exact h
  · have hfalse : projectLikeExists db pid uid = false := by
      simpa using hdup
    have hnall : ∀ l ∈ db.projectLikes, ¬(l.projectId = pid ∧ l.userId = uid) := by
      simp only [projectLikeExists, List.any_eq_false, decide_eq_true_eq] at hfalse
      exact hfalse
    obtain ⟨p0, hp0, hp0id⟩ := hex
    have hpidlt : pid < db.nextId := hp0id ▸ h.projFresh p0 hp0
    simp only [likeProject, if_neg hdup]
    refine ⟨?_, ?_, ?_, ?_, ?_, ?_, ?_, ?_, ?_, ?_, ?_, ?_, ?_, ?_⟩
    · intro p hp
      simp only [bumpProjectLikeCount] at hp
      obtain ⟨r, hr, rfl⟩ := List.mem_map.mp hp
      have hlt := h.projFresh r hr
      by_cases hri : r.id = pid <;> simp [hri] <;> omega
    · intro q hq
      exact Nat.lt_succ_of_lt (h.postFresh q hq)
    · intro c hc
      exact Nat.lt_succ_of_lt (h.commentFresh c hc)
    · intro c hc pid2 hpid2
      exact Nat.lt_succ_of_lt (h.commentProjRef c hc pid2 hpid2)
    · intro c hc qid2 hqid2
      exact Nat.lt_succ_of_lt (h.commentPostRef c hc qid2 hqid2)
    · intro l hl
      rcases List.mem_append.mp hl with hold | hnew
      · exact Nat.lt_succ_of_lt (h.likeRef l hold)
      · rw [List.mem_singleton.mp hnew]
        exact Nat.lt_succ_of_lt hpidlt
    · intro l hl
      exact Nat.lt_succ_of_lt (h.postLikeRef l hl)
    · intro v hv
      exact Nat.lt_succ_of_lt (h.viewRef v hv)
    · intro a b
      rw [List.filter_append, List.length_append]
      by_cases hab : pid = a ∧ uid = b
      · have h0 : db.projectLikes.filter
            (fun l => l.projectId = a ∧ l.userId = b) = [] := by
          rw [List.filter_eq_nil_iff]
          intro l hl
          simp only [decide_eq_true_eq]
          rintro ⟨h1, h2⟩
          exact hnall l hl ⟨h1.trans hab.1.symm, h2.trans hab.2.symm⟩
        rw [h0]
        simp [hab.1, hab.2]
      · have h1 : (([{ id := db.nextId, projectId := pid, userId := uid }] :
            List ProjectLike).filter
              (fun l => l.projectId = a ∧ l.userId = b)).length = 0 := by
          simp [hab]
        rw [h1]
        simpa using h.likeUniq a b
    · exact h.postLikeUniq
    · exact h.commentIdUniq
    · exact h.commentParent
    · intro p hp
      simp only [bumpProjectLikeCount] at hp
      obtain ⟨r, hr, rfl⟩ := List.mem_map.mp hp
      obtain ⟨hv, hl, hc⟩ := h.projCounts r hr
      by_cases hri : r.id = pid
      · refine ⟨?_, ?_, ?_⟩ <;>
          simp [hri, countProjectViews, countProjectLikes, countProjectComments,
            List.filter_append, hv, hl, hc]
      · have hne : ¬(pid = r.id) := fun hh => hri hh.symm
        refine ⟨?_, ?_, ?_⟩ <;>
          simp [hri, hne, countProjectViews, countProjectLikes,
            countProjectComments, List.filter_append, hv, hl, hc]
    · intro q hq
      exact h.postCounts q hq

lemma inv_unlikeProject (pid uid : Nat) (db : DB) (h : Inv db) :
    Inv (unlikeProject pid uid db).2 := by
  simp only [unlikeProject]
  by_cases hnonempty : 0 < (db.projectLikes.filter
      (fun l => l.projectId = pid ∧ l.userId = uid)).length
  · rw [if_pos hnonempty]
    have hlen1 : (db.projectLikes.filter
        (fun l => l.projectId = pid ∧ l.userId = uid)).length = 1 :=
      Nat.le_antisymm (h.likeUniq pid uid) hnonempty
    refine ⟨?_, ?_, ?_, ?_, ?_, ?_, ?_, ?_, ?_, ?_, ?_, ?_, ?_, ?_⟩
    · intro p hp
      simp only [bumpProjectLikeCount] at hp
      obtain ⟨r, hr, rfl⟩ := List.mem_map.mp hp
      have hlt := h.projFresh r hr
      by_cases hri : r.id = pid <;> simp [hri] <;> omega
    · intro q hq
      exact h.postFresh q hq
    · intro c hc
      exact h.commentFresh c hc
    · intro c hc pid2 hpid2
      exact h.commentProjRef c hc pid2 hpid2
    · intro c hc qid2 hqid2
      exact h.commentPostRef c hc qid2 hqid2
    · intro l hl
      exact h.likeRef l (List.mem_of_mem_filter hl)
    · intro l hl
      exact h.postLikeRef l hl
    · intro v hv
      exact h.viewRef v hv
    · intro a b
      exact le_trans
        (List.Sublist.length_le (List.Sublist.filter _ (List.filter_sublist _)))
        (h.likeUniq a b)
    · exact h.postLikeUniq
    · exact h.commentIdUniq
    · exact h.commentParent
    · intro p hp
      simp only [bumpProjectLikeCount] at hp
      obtain ⟨r, hr, rfl⟩ := List.mem_map.mp hp
      obtain ⟨hv, hl, hc⟩ := h.projCounts r hr
      simp only [countProjectLikes] at hl
      by_cases hri : r.id = pid
      · rw [if_pos hri]
        rw [hri] at hl
        have heq : db.projectLikes.filter
            (fun a => decide (a.projectId = pid) &&
              decide (a.projectId = pid ∧ a.userId = uid))
            = db.projectLikes.filter
              (fun a => decide (a.projectId = pid ∧ a.userId = uid)) :=
          filter_and_of_imp _ _
            (fun a ha => by
              simp only [decide_eq_true_eq] at ha ⊢
              exact ha.1) _
        have key := length_filter_split (fun l => decide (l.projectId = pid))
          (fun l => decide (l.projectId = pid ∧ l.userId = uid)) db.projectLikes
        rw [heq, hlen1] at key
        refine ⟨hv, ?_, hc⟩
        simp only [countProjectLikes, decide_not, hri]
        omega
      · rw [if_neg hri]
        have hexcl : db.projectLikes.filter
            (fun a => decide (a.projectId = r.id) &&
              decide (a.projectId = pid ∧ a.userId = uid)) = [] := by
          rw [List.filter_eq_nil_iff]
          intro a ha hcon
          rw [Bool.and_eq_true] at hcon
          obtain ⟨h1, h2⟩ := hcon
          simp only [decide_eq_true_eq] at h1 h2
          exact hri (h1.symm.trans h2.1)
        have key := length_filter_split (fun l => decide (l.projectId = r.id))
          (fun l => decide (l.projectId = pid ∧ l.userId = uid)) db.projectLikes
        rw [hexcl] at key
        simp only [List.length_nil, Nat.add_zero] at key
        refine ⟨hv, ?_, hc⟩
        simp only [countProjectLikes, decide_not]
        omega
    · intro q hq
      exact h.postCounts q hq
  · rw [if_neg hnonempty]
    have hq0 : db.projectLikes.filter
        (fun l => l.projectId = pid ∧ l.userId = uid) = [] :=
      List.length_eq_zero.mp (Nat.eq_zero_of_not_pos hnonempty)
    have hself : db.projectLikes.filter
        (fun l => ¬(l.projectId = pid ∧ l.userId = uid)) = db.projectLikes := by
      rw [List.filter_eq_self]
      intro a ha
      simp only [decide_eq_true_eq]
      intro hcon
      have hin : a ∈ db.projectLikes.filter
          (fun l => l.projectId = pid ∧ l.userId = uid) :=
        List.mem_filter.mpr ⟨ha, by simp only [decide_eq_true_eq]; exact hcon⟩
      rw [hq0] at hin
      exact absurd hin (List.not_mem_nil a)
    rw [hself]
    exact h

lemma inv_likePost (qid uid : Nat) (db : DB) (h : Inv db)
    (hex : ∃ q ∈ db.communityPosts, q.id = qid) :
    Inv (likeCommunityPost qid uid db).2 := by
  by_cases hdup : postLikeExists db qid uid = true
  · simp only [likeCommunityPost, if_pos hdup]
    exact h
  · have hfalse : postLikeExists db qid uid = false := by
      simpa using hdup
    have hnall : ∀ l ∈ db.postLikes, ¬(l.postId = qid ∧ l.userId = uid) := by
      simp only [postLikeExists, List.any_eq_false, decide_eq_true_eq] at hfalse
      exact hfalse
    obtain ⟨q0, hq0, hq0id⟩ := hex
    have hqidlt : qid < db.nextId := hq0id ▸ h.postFresh q0 hq0
    simp only [likeCommunityPost, if_neg hdup]
    refine ⟨?_, ?_, ?_, ?_, ?_, ?_, ?_, ?_, ?_, ?_, ?_, ?_, ?_, ?_⟩
    · intro p hp
      exact Nat.lt_succ_of_lt (h.projFresh p hp)
    · intro q hq
      simp only [bumpPostLikeCount] at hq
      obtain ⟨r, hr, rfl⟩ := List.mem_map.mp hq
      have hlt := h.postFresh r hr
      by_cases hri : r.id = qid <;> simp [hri] <;> omega
    · intro c hc
      exact Nat.lt_succ_of_lt (h.commentFresh c hc)
    · intro c hc pid2 hpid2
      exact Nat.lt_succ_of_lt (h.commentProjRef c hc pid2 hpid2)
    · intro c hc qid2 hqid2
      exact Nat.lt_succ_of_lt (h.commentPostRef c hc qid2 hqid2)
    · intro l hl
      exact Nat.lt_succ_of_lt (h.likeRef l hl)
    · intro l hl
      rcases List.mem_append.mp hl with hold | hnew
      · exact Nat.lt_succ_of_lt (h.postLikeRef l hold)
      · rw [List.mem_singleton.mp hnew]
        exact Nat.lt_succ_of_lt hqidlt
    · intro v hv
      exact Nat.lt_succ_of_lt (h.viewRef v hv)
    · exact h.likeUniq
    · intro a b
      rw [List.filter_append, List.length_append]
      by_cases hab : qid = a ∧ uid = b
      · have h0 : db.postLikes.filter
            (fun l => l.postId = a ∧ l.userId = b) = [] := by
          rw [List.filter_eq_nil_iff]
          intro l hl
          simp only [decide_eq_true_eq]
          rintro ⟨h1, h2⟩
          exact hnall l hl ⟨h1.trans hab.1.symm, h2.trans hab.2.symm⟩
        rw [h0]
        simp [hab.1, hab.2]
      · have h1 : (([{ id := db.nextId, postId := qid, userId := uid }] :
            List PostLike).filter
              (fun l => l.postId = a ∧ l.userId = b)).length = 0 := by
          simp [hab]
        rw [h1]
        simpa using h.postLikeUniq a b
    · exact h.commentIdUniq
    · exact h.commentParent
    · intro p hp
      exact h.projCounts p hp
    · intro q hq
      simp only [bumpPostLikeCount] at hq
      obtain ⟨r, hr, rfl⟩ := List.mem_map.mp hq
      obtain ⟨hl, hc⟩ := h.postCounts r hr
      by_cases hri : r.id = qid
      · refine ⟨?_, ?_⟩ <;>
          simp [hri, countPostLikes, countPostComments,
            List.filter_append, hl, hc]
      · have hne : ¬(qid = r.id) := fun hh => hri hh.symm
        refine ⟨?_, ?_⟩ <;>
          simp [hri, hne, countPostLikes, countPostComments,
            List.filter_append, hl, hc]

lemma inv_unlikePost (qid uid : Nat) (db : DB) (h : Inv db) :
    Inv (unlikeCommunityPost qid uid db).2 := by
  simp only [unlikeCommunityPost]
  by_cases hnonempty : 0 < (db.postLikes.filter
      (fun l => l.postId = qid ∧ l.userId = uid)).length
  · rw [if_pos hnonempty]
    have hlen1 : (db.postLikes.filter
        (fun l => l.postId = qid ∧ l.userId = uid)).length = 1 :=
      Nat.le_antisymm (h.postLikeUniq qid uid) hnonempty
    refine ⟨?_, ?_, ?_, ?_, ?_, ?_, ?_, ?_, ?_, ?_, ?_, ?_, ?_, ?_⟩
    · intro p hp
      exact h.projFresh p hp
    · intro q hq
      simp only [bumpPostLikeCount] at hq
      obtain ⟨r, hr, rfl⟩ := List.mem_map.mp hq
      have hlt := h.postFresh r hr
      by_cases hri : r.id = qid <;> simp [hri] <;> omega
    · intro c hc
      exact h.commentFresh c hc
    · intro c hc pid2 hpid2
      exact h.commentProjRef c hc pid2 hpid2
    · intro c hc qid2 hqid2
      exact h.commentPostRef c hc qid2 hqid2
    · intro l hl
      exact h.likeRef l hl
    · intro l hl
      exact h.postLikeRef l (List.mem_of_mem_filter hl)
    · intro v hv
      exact h.viewRef v hv
    · exact h.likeUniq
    · intro a b
      exact le_trans
        (List.Sublist.length_le (List.Sublist.filter _ (List.filter_sublist _)))
        (h.postLikeUniq a b)
    · exact h.commentIdUniq
    · exact h.commentParent
    · intro p hp
      exact h.projCounts p hp
    · intro q hq
      simp only [bumpPostLikeCount] at hq
      obtain ⟨r, hr, rfl⟩ := List.mem_map.mp hq
      obtain ⟨hl, hc⟩ := h.postCounts r hr
      simp only [countPostLikes] at hl
      by_cases hri : r.id = qid
      · rw [if_pos hri]
        rw [hri] at hl
        have heq : db.postLikes.filter
            (fun a => decide (a.postId = qid) &&
              decide (a.postId = qid ∧ a.userId = uid))
            = db.postLikes.filter
              (fun a => decide (a.postId = qid ∧ a.userId = uid)) :=
          filter_and_of_imp _ _
            (fun a ha => by
              simp only [decide_eq_true_eq] at ha ⊢
              exact ha.1) _
        have key := length_filter_split (fun l => decide (l.postId = qid))
          (fun l => decide (l.postId = qid ∧ l.userId = uid)) db.postLikes
        rw [heq, hlen1] at key
        refine ⟨?_, hc⟩
        simp only [countPostLikes, decide_not, hri]
        omega
      · rw [if_neg hri]
        have hexcl : db.postLikes.filter
            (fun a => decide (a.postId = r.id) &&
              decide (a.postId = qid ∧ a.userId = uid)) = [] := by
          rw [List.filter_eq_nil_iff]
          intro a ha hcon
          rw [Bool.and_eq_true] at hcon
          obtain ⟨h1, h2⟩ := hcon
          simp only [decide_eq_true_eq] at h1 h2
          exact hri (h1.symm.trans h2.1)
        have key := length_filter_split (fun l => decide (l.postId = r.id))
          (fun l => decide (l.postId = qid ∧ l.userId = uid)) db.postLikes
        rw [hexcl] at key
        simp only [List.length_nil, Nat.add_zero] at key
        refine ⟨?_, hc⟩
        simp only [countPostLikes, decide_not]
        omega
  · rw [if_neg hnonempty]
    have hq0 : db.postLikes.filter
        (fun l => l.postId = qid ∧ l.userId = uid) = [] :=
      List.length_eq_zero.mp (Nat.eq_zero_of_not_pos hnonempty)
    have hself : db.postLikes.filter
        (fun l => ¬(l.postId = qid ∧ l.userId = uid)) = db.postLikes := by
      rw [List.filter_eq_self]
      intro a ha
      simp only [decide_eq_true_eq]
      intro hcon
      have hin : a ∈ db.postLikes.filter
          (fun l => l.postId = qid ∧ l.userId = uid) :=
        List.mem_filter.mpr ⟨ha, by simp only [decide_eq_true_eq]; exact hcon⟩
      rw [hq0] at hin
      exact absurd hin (List.not_mem_nil a)
    rw [hself]
    exact h

lemma inv_bookmarkProject (pid uid : Nat) (db : DB) (h : Inv db) :
    Inv (bookmarkProject pid uid db).2 := by
  by_cases hdup : projectBookmarkExists db pid uid = true
  · simp only [bookmarkProject, if_pos hdup]
    exact h
  · simp only [bookmarkProject, if_neg hdup]
    refine ⟨?_, ?_, ?_, ?_, ?_, ?_, ?_, ?_,
      h.likeUniq, h.postLikeUniq, h.commentIdUniq, h.commentParent,
      h.projCounts, h.postCounts⟩
    · intro p hp
      exact Nat.lt_succ_of_lt (h.projFresh p hp)
    · intro q hq
      exact Nat.lt_succ_of_lt (h.postFresh q hq)
    · intro c hc
      exact Nat.lt_succ_of_lt (h.commentFresh c hc)
    · intro c hc pid2 hpid2
      exact Nat.lt_succ_of_lt (h.commentProjRef c hc pid2 hpid2)
    · intro c hc qid2 hqid2
      exact Nat.lt_succ_of_lt (h.commentPostRef c hc qid2 hqid2)
    · intro l hl
      exact Nat.lt_succ_of_lt (h.likeRef l hl)
    · intro l hl
      exact Nat.lt_succ_of_lt (h.postLikeRef l hl)
    · intro v hv
      exact Nat.lt_succ_of_lt (h.viewRef v hv)

lemma inv_unbookmarkProject (pid uid : Nat) (db : DB) (h : Inv db) :
    Inv (unbookmarkProject pid uid db).2 :=
  ⟨h.projFresh, h.postFresh, h.commentFresh, h.commentProjRef,
   h.commentPostRef, h.likeRef, h.postLikeRef, h.viewRef,
   h.likeUniq, h.postLikeUniq, h.commentIdUniq, h.commentParent,
   h.projCounts, h.postCounts⟩

lemma inv_trackProjectView (pid : Nat) (uid : Option Nat) (ip : Option String)
    (db : DB) (h : Inv db) (hex : ∃ p ∈ db.projects, p.id = pid) :
    Inv (trackProjectView pid uid ip db) := by
  obtain ⟨p0, hp0, hp0id⟩ := hex
  have hpidlt : pid < db.nextId := hp0id ▸ h.projFresh p0 hp0
  simp only [trackProjectView, incrementProjectViews]
  refine ⟨?_, ?_, ?_, ?_, ?_, ?_, ?_, ?_, ?_, ?_, ?_, ?_, ?_, ?_⟩
  · intro p hp
    obtain ⟨r, hr, rfl⟩ := List.mem_map.mp hp
    have hlt := h.projFresh r hr
    by_cases hri : r.id = pid <;> simp [hri] <;> omega
  · intro q hq
    exact Nat.lt_succ_of_lt (h.postFresh q hq)
  · intro c hc
    exact Nat.lt_succ_of_lt (h.commentFresh c hc)
  · intro c hc pid2 hpid2
    exact Nat.lt_succ_of_lt (h.commentProjRef c hc pid2 hpid2)
  · intro c hc qid2 hqid2
    exact Nat.lt_succ_of_lt (h.commentPostRef c hc qid2 hqid2)
  · intro l hl
    exact Nat.lt_succ_of_lt (h.likeRef l hl)
  · intro l hl
    exact Nat.lt_succ_of_lt (h.postLikeRef l hl)
  · intro v hv
    rcases List.mem_append.mp hv with hold | hnew
    · exact Nat.lt_succ_of_lt (h.viewRef v hold)
    · rw [List.mem_singleton.mp hnew]
      exact Nat.lt_succ_of_lt hpidlt
  · exact h.likeUniq
  · exact h.postLikeUniq
  · exact h.commentIdUniq
  · exact h.commentParent
  · intro p hp
    obtain ⟨r, hr, rfl⟩ := List.mem_map.mp hp
    obtain ⟨hv, hl, hc⟩ := h.projCounts r hr
    by_cases hri : r.id = pid
    · refine ⟨?_, ?_, ?_⟩ <;>
        simp [hri, countProjectViews, countProjectLikes, countProjectComments,
          List.filter_append, hv, hl, hc]
    · have hne : ¬(pid = r.id) := fun hh => hri hh.symm
      refine ⟨?_, ?_, ?_⟩ <;>
        simp [hri, hne, countProjectViews, countProjectLikes,
          countProjectComments, List.filter_append, hv, hl, hc]
  · intro q hq
    exact h.postCounts q hq

lemma inv_createComment (ic : InsertComment) (db : DB) (h : Inv db)
    (hside : (∃ pid, ic.projectId = some pid ∧ ic.postId = none ∧
        ∃ p ∈ db.projects, p.id = pid) ∨
      (ic.projectId = none ∧ ∃ qid, ic.postId = some qid ∧
        ∃ q ∈ db.communityPosts, q.id = qid)) :
    Inv (createComment ic db).2 := by
  rcases hside with ⟨pid, hic1, hic2, p0, hp0, hp0id⟩ |
    ⟨hic1, qid, hic2, q0, hq0, hq0id⟩
  · have hpidlt : pid < db.nextId := hp0id ▸ h.projFresh p0 hp0
    simp only [createComment, hic1]
    refine ⟨?_, ?_, ?_, ?_, ?_, ?_, ?_, ?_, ?_, ?_, ?_, ?_, ?_, ?_⟩
    · intro p hp
      simp only [bumpProjectCommentCount] at hp
      obtain ⟨r, hr, rfl⟩ := List.mem_map.mp hp
      have hlt := h.projFresh r hr
      by_cases hri : r.id = pid <;> simp [hri] <;> omega
    · intro q hq
      exact Nat.lt_succ_of_lt (h.postFresh q hq)
    · intro c hc
      rcases List.mem_append.mp hc with hold | hnew
      · exact Nat.lt_succ_of_lt (h.commentFresh c hold)
      · rw [List.mem_singleton.mp hnew]
        exact Nat.lt_succ_self _
    · intro c hc pid2 hpid2
      rcases List.mem_append.mp hc with hold | hnew
      · exact Nat.lt_succ_of_lt (h.commentProjRef c hold pid2 hpid2)
      · rw [List.mem_singleton.mp hnew] at hpid2
        simp only [Option.some.injEq] at hpid2
        show pid2 < db.nextId + 1
        omega
    · intro c hc qid2 hqid2
      rcases List.mem_append.mp hc with hold | hnew
      · exact Nat.lt_succ_of_lt (h.commentPostRef c hold qid2 hqid2)
      · rw [List.mem_singleton.mp hnew] at hqid2
        simp [hic2] at hqid2
    · intro l hl
      exact Nat.lt_succ_of_lt (h.likeRef l hl)
    · intro l hl
      exact Nat.lt_succ_of_lt (h.postLikeRef l hl)
    · intro v hv
      exact Nat.lt_succ_of_lt (h.viewRef v hv)
    · exact h.likeUniq
    · exact h.postLikeUniq
    · intro j
      rw [List.filter_append, List.length_append]
      by_cases hj : db.nextId = j
      · have h0 : db.comments.filter (fun c => c.id = j) = [] := by
          rw [List.filter_eq_nil_iff]
          intro c2 hc2
          simp only [decide_eq_true_eq]
          intro heq
          have := h.commentFresh c2 hc2
          omega
        rw [h0]
        simp [hj]
      · simpa [hj] using h.commentIdUniq j
    · intro c hc
      rcases List.mem_append.mp hc with hold | hnew
      · exact h.commentParent c hold
      · rw [List.mem_singleton.mp hnew]
        exact Or.inl ⟨by simp, hic2⟩
    · intro p hp
      simp only [bumpProjectCommentCount] at hp
      obtain ⟨r, hr, rfl⟩ := List.mem_map.mp hp
      obtain ⟨hv, hl, hc⟩ := h.projCounts r hr
      by_cases hri : r.id = pid
      · refine ⟨?_, ?_, ?_⟩ <;>
          simp [hri, countProjectViews, countProjectLikes,
            countProjectComments, List.filter_append, hv, hl, hc]
      · have hne : ¬(pid = r.id) := fun hh => hri hh.symm
        refine ⟨?_, ?_, ?_⟩ <;>
          simp [hri, hne, countProjectViews, countProjectLikes,
            countProjectComments, List.filter_append, hv, hl, hc]
    · intro q hq
      obtain ⟨hl2, hc2⟩ := h.postCounts q hq
      refine ⟨?_, ?_⟩ <;>
        simp [countPostLikes, countPostComments, List.filter_append,
          hic2, hl2, hc2]
  · have hqidlt : qid < db.nextId := hq0id ▸ h.postFresh q0 hq0
    simp only [createComment, hic1, hic2]
    refine ⟨?_, ?_, ?_, ?_, ?_, ?_, ?_, ?_, ?_, ?_, ?_, ?_, ?_, ?_⟩
    · intro p hp
      exact Nat.lt_succ_of_lt (h.projFresh p hp)
    · intro q hq
      simp only [bumpPostCommentCount] at hq
      obtain ⟨r, hr, rfl⟩ := List.mem_map.mp hq
      have hlt := h.postFresh r hr
      by_cases hri : r.id = qid <;> simp [hri] <;> omega
    · intro c hc
      rcases List.mem_append.mp hc with hold | hnew
      · exact Nat.lt_succ_of_lt (h.commentFresh c hold)
      · rw [List.mem_singleton.mp hnew]
        exact Nat.lt_succ_self _
    · intro c hc pid2 hpid2
      rcases List.mem_append.mp hc with hold | hnew
      · exact Nat.lt_succ_of_lt (h.commentProjRef c hold pid2 hpid2)
      · rw [List.mem_singleton.mp hnew] at hpid2
        simp [hic1] at hpid2
    · intro c hc qid2 hqid2
      rcases List.mem_append.mp hc with hold | hnew
      · exact Nat.lt_succ_of_lt (h.commentPostRef c hold qid2 hqid2)
      · rw [List.mem_singleton.mp hnew] at hqid2
        simp only [Option.some.injEq] at hqid2
        show qid2 < db.nextId + 1
        omega
    · intro l hl
      exact Nat.lt_succ_of_lt (h.likeRef l hl)
    · intro l hl
      exact Nat.lt_succ_of_lt (h.postLikeRef l hl)
    · intro v hv
      exact Nat.lt_succ_of_lt (h.viewRef v hv)
    · exact h.likeUniq
    · exact h.postLikeUniq
    · intro j
      rw [List.filter_append, List.length_append]
      by_cases hj : db.nextId = j
      · have h0 : db.comments.filter (fun c => c.id = j) = [] := by
          rw [List.filter_eq_nil_iff]
          intro c2 hc2
          simp only [decide_eq_true_eq]
          intro heq
          have := h.commentFresh c2 hc2
          omega
        rw [h0]
        simp [hj]
      · simpa [hj] using h.commentIdUniq j
    · intro c hc
      rcases List.mem_append.mp hc with hold | hnew
      · exact h.commentParent c hold
      · rw [List.mem_singleton.mp hnew]
        exact Or.inr ⟨rfl, by simp⟩
    · intro p hp
      obtain ⟨hv, hl, hc⟩ := h.projCounts p hp
      refine ⟨?_, ?_, ?_⟩ <;>
        simp [countProjectViews, countProjectLikes, countProjectComments,
          List.filter_append, hic1, hv, hl, hc]
    · intro q hq
      simp only [bumpPostCommentCount] at hq
      obtain ⟨r, hr, rfl⟩ := List.mem_map.mp hq
      obtain ⟨hl2, hc2⟩ := h.postCounts r hr
      by_cases hri : r.id = qid
      · refine ⟨?_, ?_⟩ <;>
          simp [hri, countPostLikes, countPostComments,
            List.filter_append, hl2, hc2]
      · have hne : ¬(qid = r.id) := fun hh => hri hh.symm
        refine ⟨?_, ?_⟩ <;>
          simp [hri, hne, countPostLikes, countPostComments,
            List.filter_append, hl2, hc2]

lemma inv_deleteComment (i uid : Nat) (db : DB) (h : Inv db) :
    Inv (deleteComment i uid db).2 := by
  rcases hf : db.comments.find? (fun c => c.id = i ∧ c.userId = uid) with _ | c0
  · simp only [deleteComment, hf]
    exact h
  · have hc0m : c0 ∈ db.comments := List.mem_of_find?_eq_some hf
    have hc0p : c0.id = i ∧ c0.userId = uid := by
      simpa using List.find?_some hf
    have hmem : c0 ∈ db.comments.filter (fun c => c.id = i ∧ c.userId = uid) :=
      List.mem_filter.mpr ⟨hc0m, by simp only [decide_eq_true_eq]; exact hc0p⟩
    have hpos : 0 < (db.comments.filter
        (fun c => c.id = i ∧ c.userId = uid)).length :=
      List.length_pos.mpr (List.ne_nil_of_mem hmem)
    have hle := length_filter_le_of_imp
      (fun c : Comment => decide (c.id = i ∧ c.userId = uid))
      (fun c : Comment => decide (c.id = i))
      (fun a ha => by simp only [decide_eq_true_eq] at ha ⊢; exact ha.1)
      db.comments
    have hlen1 : (db.comments.filter
        (fun c => c.id = i ∧ c.userId = uid)).length = 1 :=
      Nat.le_antisymm (le_trans hle (h.commentIdUniq i)) hpos
    have hdel : db.comments.filter (fun c => c.id = i ∧ c.userId = uid) = [c0] := by
      obtain ⟨a, ha⟩ := List.length_eq_one.mp hlen1
      rw [ha] at hmem ⊢
      rw [List.mem_singleton.mp hmem]
    have hcount : ∀ p : Comment → Bool,
        ((db.comments.filter
            (fun a => !(decide (a.id = i ∧ a.userId = uid)))).filter p).length
          + (([c0] : List Comment).filter p).length
          = (db.comments.filter p).length := by
      intro p
      have key := length_filter_split p
        (fun c => decide (c.id = i ∧ c.userId = uid)) db.comments
      rw [← List.filter_filter, hdel] at key
      exact key
    simp only [deleteComment, hf]
    rw [if_pos hpos]
    rcases hp : c0.projectId with _ | pid
    · rcases hq : c0.postId with _ | qid
      · rcases h.commentParent c0 hc0m with ⟨hs, _⟩ | ⟨_, hs⟩
        · rw [hp] at hs
          exact absurd hs (by simp)
        · rw [hq] at hs
          exact absurd hs (by simp)
      · refine ⟨?_, ?_, ?_, ?_, ?_, ?_, ?_, ?_, ?_, ?_, ?_, ?_, ?_, ?_⟩
        · intro p hp2
          exact h.projFresh p hp2
        · intro q hq2
          simp only [bumpPostCommentCount] at hq2
          obtain ⟨r, hr, rfl⟩ := List.mem_map.mp hq2
          have hlt := h.postFresh r hr
          by_cases hri : r.id = qid <;> simp [hri] <;> omega
        · intro c hc
          exact h.commentFresh c (List.mem_of_mem_filter hc)
        · intro c hc pid2 hpid2
          exact h.commentProjRef c (List.mem_of_mem_filter hc) pid2 hpid2
        · intro c hc qid2 hqid2
          exact h.commentPostRef c (List.mem_of_mem_filter hc) qid2 hqid2
        · intro l hl
          exact h.likeRef l hl
        · intro l hl
          exact h.postLikeRef l hl
        · intro v hv
          exact h.viewRef v hv
        · exact h.likeUniq
        · exact h.postLikeUniq
        · intro j
          exact le_trans
            (List.Sublist.length_le
              (List.Sublist.filter _ (List.filter_sublist _)))
            (h.commentIdUniq j)
        · intro c hc
          exact h.commentParent c (List.mem_of_mem_filter hc)
        · intro p hp2
          obtain ⟨hv, hl, hc⟩ := h.projCounts p hp2
          refine ⟨hv, hl, ?_⟩
          have key := hcount (fun c => decide (c.projectId = some p.id))
          have hsing : (([c0] : List Comment).filter
              (fun c => decide (c.projectId = some p.id))).length = 0 := by
            simp [hp]
          rw [hsing] at key
          simp only [countProjectComments] at hc
          simp only [countProjectComments, decide_not]
          omega
        · intro q hq2
          simp only [bumpPostCommentCount] at hq2
          obtain ⟨r, hr, rfl⟩ := List.mem_map.mp hq2
          obtain ⟨hl2, hc2⟩ := h.postCounts r hr
          simp only [countPostComments] at hc2
          by_cases hri : r.id = qid
          · rw [if_pos hri]
            rw [hri] at hc2
            have key := hcount (fun c => decide (c.postId = some qid))
            have hsing : (([c0] : List Comment).filter
                (fun c => decide (c.postId = some qid))).length = 1 := by
              simp [hq]
            rw [hsing] at key
            refine ⟨hl2, ?_⟩
            simp only [countPostComments, decide_not, hri]
            omega
          · rw [if_neg hri]
            have key := hcount (fun c => decide (c.postId = some r.id))
            have hsing : (([c0] : List Comment).filter
                (fun c => decide (c.postId = some r.id))).length = 0 := by
              have hne : ¬(qid = r.id) := fun hh => hri hh.symm
              simp [hq, hne]
            rw [hsing] at key
            refine ⟨hl2, ?_⟩
            simp only [countPostComments, decide_not]
            omega
    · refine ⟨?_, ?_, ?_, ?_, ?_, ?_, ?_, ?_, ?_, ?_, ?_, ?_, ?_, ?_⟩
      · intro p hp2
        simp only [bumpProjectCommentCount] at hp2
        obtain ⟨r, hr, rfl⟩ := List.mem_map.mp hp2
        have hlt := h.projFresh r hr
        by_cases hri : r.id = pid <;> simp [hri] <;> omega
      · intro q hq2
        exact h.postFresh q hq2
      · intro c hc
        exact h.commentFresh c (List.mem_of_mem_filter hc)
      · intro c hc pid2 hpid2
        exact h.commentProjRef c (List.mem_of_mem_filter hc) pid2 hpid2
      · intro c hc qid2 hqid2
        exact h.commentPostRef c (List.mem_of_mem_filter hc) qid2 hqid2
      · intro l hl
        exact h.likeRef l hl
      · intro l hl
        exact h.postLikeRef l hl
      · intro v hv
        exact h.viewRef v hv
      · exact h.likeUniq
      · exact h.postLikeUniq
      · intro j
        exact le_trans
          (List.Sublist.length_le
            (List.Sublist.filter _ (List.filter_sublist _)))
          (h.commentIdUniq j)
      · intro c hc
        exact h.commentParent c (List.mem_of_mem_filter hc)
      · intro p hp2
        simp only [bumpProjectCommentCount] at hp2
        obtain ⟨r, hr, rfl⟩ := List.mem_map.mp hp2
        obtain ⟨hv, hl, hc⟩ := h.projCounts r hr
        simp only [countProjectComments] at hc
        by_cases hri : r.id = pid
        · rw [if_pos hri]
          rw [hri] at hc
          have key := hcount (fun c => decide (c.projectId = some pid))
          have hsing : (([c0] : List Comment).filter
              (fun c => decide (c.projectId = some pid))).length = 1 := by
            simp [hp]
          rw [hsing] at key
          refine ⟨hv, hl, ?_⟩
          simp only [countProjectComments, decide_not, hri]
          omega
        · rw [if_neg hri]
          have key := hcount (fun c => decide (c.projectId = some r.id))
          have hsing : (([c0] : List Comment).filter
              (fun c => decide (c.projectId = some r.id))).length = 0 := by
            have hne : ¬(pid = r.id) := fun hh => hri hh.symm
            simp [hp, hne]
          rw [hsing] at key
          refine ⟨hv, hl, ?_⟩
          simp only [countProjectComments, decide_not]
          omega
      · intro q hq2
        obtain ⟨hl2, hc2⟩ := h.postCounts q hq2
        refine ⟨hl2, ?_⟩
        have hq0 : c0.postId = none := by
          rcases h.commentParent c0 hc0m with ⟨_, hn⟩ | ⟨hne, _⟩
          · exact hn
          · rw [hp] at hne
            exact Option.noConfusion hne
        have key := hcount (fun c => decide (c.postId = some q.id))
        have hsing : (([c0] : List Comment).filter
            (fun c => decide (c.postId = some q.id))).length = 0 := by
          simp [hq0]
        rw [hsing] at key
        simp only [countPostComments] at hc2
        simp only [countPostComments, decide_not]
        omega

lemma inv_syncSingleProject (now pid : Nat) (db : DB) (h : Inv db) :
    Inv (syncSingleProjectCounts now pid db) := by
  simp only [syncSingleProjectCounts]
  refine ⟨?_, ?_, ?_, ?_, ?_, ?_, ?_, ?_,
    h.likeUniq, h.postLikeUniq, h.commentIdUniq, h.commentParent, ?_, ?_⟩
  · intro p hp
    obtain ⟨r, hr, rfl⟩ := List.mem_map.mp hp
    have hlt := h.projFresh r hr
    by_cases hri : r.id = pid <;> simp [hri] <;> omega
  · intro q hq
    exact h.postFresh q hq
  · intro c hc
    exact h.commentFresh c hc
  · intro c hc pid2 hpid2
    exact h.commentProjRef c hc pid2 hpid2
  · intro c hc qid2 hqid2
    exact h.commentPostRef c hc qid2 hqid2
  · intro l hl
    exact h.likeRef l hl
  · intro l hl
    exact h.postLikeRef l hl
  · intro v hv
    exact h.viewRef v hv
  · intro p hp
    obtain ⟨r, hr, rfl⟩ := List.mem_map.mp hp
    by_cases hri : r.id = pid
    · rw [if_pos hri]
      refine ⟨?_, ?_, ?_⟩ <;>
        simp [hri, countProjectViews, countProjectLikes, countProjectComments]
    · rw [if_neg hri]
      exact h.projCounts r hr
  · intro q hq
    exact h.postCounts q hq

lemma inv_syncSinglePost (now qid : Nat) (db : DB) (h : Inv db) :
    Inv (syncSinglePostCounts now qid db) := by
  simp only [syncSinglePostCounts]
  refine ⟨?_, ?_, ?_, ?_, ?_, ?_, ?_, ?_,
    h.likeUniq, h.postLikeUniq, h.commentIdUniq, h.commentParent, ?_, ?_⟩
  · intro p hp
    exact h.projFresh p hp
  · intro q hq
    obtain ⟨r, hr, rfl⟩ := List.mem_map.mp hq
    have hlt := h.postFresh r hr
    by_cases hri : r.id = qid <;> simp [hri] <;> omega
  · intro c hc
    exact h.commentFresh c hc
  · intro c hc pid2 hpid2
    exact h.commentProjRef c hc pid2 hpid2
  · intro c hc qid2 hqid2
    exact h.commentPostRef c hc qid2 hqid2
  · intro l hl
    exact h.likeRef l hl
  · intro l hl
    exact h.postLikeRef l hl
  · intro v hv
    exact h.viewRef v hv
  · intro p hp
    exact h.projCounts p hp
  · intro q hq
    obtain ⟨r, hr, rfl⟩ := List.mem_map.mp hq
    by_cases hri : r.id = qid
    · rw [if_pos hri]
      refine ⟨?_, ?_⟩ <;>
        simp [hri, countPostLikes, countPostComments]
    · rw [if_neg hri]
      exact h.postCounts r hr

lemma inv_syncProjectsLoop (f : Nat → Bool) (now : Nat) :
    ∀ (ids : List Nat) (db : DB), Inv db →
      Inv (syncProjectsLoop f now ids db).2.2
  | [], _, h => h
  | i :: rest, db, h => by
    simp only [syncProjectsLoop]
    by_cases hf : f i = true
    · rw [if_pos hf]
      exact h
    · rw [if_neg hf]
      exact inv_syncProjectsLoop f now rest _ (inv_syncSingleProject now i db h)

lemma inv_syncPostsLoop (g : Nat → Bool) (now : Nat) :
    ∀ (ids : List Nat) (db : DB), Inv db →
      Inv (syncPostsLoop g now ids db).2.2
  | [], _, h => h
  | i :: rest, db, h => by
    simp only [syncPostsLoop]
    by_cases hg : g i = true
    · rw [if_pos hg]
      exact h
    · rw [if_neg hg]
      exact inv_syncPostsLoop g now rest _ (inv_syncSinglePost now i db h)

lemma inv_syncAll (f g : Nat → Bool) (now : Nat) (db : DB) (h : Inv db) :
    Inv (syncAllCounts f g now db).2 := by
  rcases hres : syncProjectCounts f now db with ⟨e, n, s⟩
  have hs : Inv s := by
    have hloop := inv_syncProjectsLoop f now (db.projects.map (fun p => p.id)) db h
    rw [show syncProjectsLoop f now (db.projects.map (fun p => p.id)) db
        = syncProjectCounts f now db from rfl, hres] at hloop
    exact hloop
  rcases e with _ | e0
  · rcases hres2 : syncCommunityPostCounts g now s with ⟨e2, m, s2⟩
    have hs2 : Inv s2 := by
      have hloop := inv_syncPostsLoop g now (s.communityPosts.map (fun q => q.id)) s hs
      rw [show syncPostsLoop g now (s.communityPosts.map (fun q => q.id)) s
          = syncCommunityPostCounts g now s from rfl, hres2] at hloop
      exact hloop
    rcases e2 with _ | e20 <;> simp only [syncAllCounts, hres, hres2] <;> exact hs2
  · simp only [syncAllCounts, hres]
    exact hs

lemma reachable_inv {db : DB} (h : Reachable db) : Inv db := by
  induction h with
  | init => exact inv_init
  | stepCreateProject t u db _ ih => exact inv_createProject t u db ih
  | stepCreatePost t u db _ ih => exact inv_createPost t u db ih
  | stepLikeProject pid uid db _ hex ih => exact inv_likeProject pid uid db ih hex
  | stepUnlikeProject pid uid db _ ih => exact inv_unlikeProject pid uid db ih
  | stepLikePost qid uid db _ hex ih => exact inv_likePost qid uid db ih hex
  | stepUnlikePost qid uid db _ ih => exact inv_unlikePost qid uid db ih
  | stepBookmark pid uid db _ ih => exact inv_bookmarkProject pid uid db ih
  | stepUnbookmark pid uid db _ ih => exact inv_unbookmarkProject pid uid db ih
  | stepTrackView pid uid ip db _ hex ih =>
    exact inv_trackProjectView pid uid ip db ih hex
  | stepCreateComment ic db _ hside ih => exact inv_createComment ic db ih hside
  | stepDeleteComment i uid db _ ih => exact inv_deleteComment i uid db ih
  | stepSyncProject now pid db _ ih => exact inv_syncSingleProject now pid db ih
  | stepSyncPost now qid db _ ih => exact inv_syncSinglePost now qid db ih
  | stepSyncAll f g now db _ ih => exact inv_syncAll f g now db ih

lemma reachable_wdb : Reachable wdb :=
  Reachable.stepCreateComment _ _
    (Reachable.stepCreateComment _ _
      (Reachable.stepLikePost 1 3 _
        (Reachable.stepLikeProject 0 3 _
          (Reachable.stepCreatePost "s" 7 _
            (Reachable.stepCreateProject "t" 7 DB.init Reachable.init))
          (by decide))
        (by decide))
      (Or.inl ⟨0, rfl, rfl, by decide⟩))
    (Or.inr ⟨rfl, 1, rfl, by decide⟩)

/-- C5: on every store reachable from the empty store by the operations of
the subsystem (entity creation, like, unlike, bookmark, view, comment
create/delete, reconcile), every cached counter of every project and every
community post is at least 0; in fact each equals the count of its matching
normalized rows, so no decrement ever drives a counter below zero. -/
theorem counters_nonneg (db : DB) (h : Reachable db) :
    (∀ p ∈ db.projects,
        0 ≤ p.viewCount ∧ 0 ≤ p.likeCount ∧ 0 ≤ p.commentCount) ∧
    (∀ q ∈ db.communityPosts, 0 ≤ q.likeCount ∧ 0 ≤ q.commentCount) := by
  have hi := reachable_inv h
  refine ⟨fun p hp => ?_, fun q hq => ?_⟩
  · obtain ⟨hv, hl, hc⟩ := hi.projCounts p hp
    exact ⟨hv ▸ Int.natCast_nonneg _, hl ▸ Int.natCast_nonneg _,
      hc ▸ Int.natCast_nonneg _⟩
  · obtain ⟨hl, hc⟩ := hi.postCounts q hq
    exact ⟨hl ▸ Int.natCast_nonneg _, hc ▸ Int.natCast_nonneg _⟩

/-- Witness for C5: the counters of the single project of wdb, a store built
by a concrete operation sequence, are nonnegative. -/
theorem counters_nonneg_check :
    0 ≤ wProj1.viewCount ∧ 0 ≤ wProj1.likeCount ∧ 0 ≤ wProj1.commentCount :=
  (counters_nonneg wdb reachable_wdb).1 wProj1 (by decide)

/-- C1: on every reachable store at most one like row exists per
(target, user) pair, in both like tables; consequently a second like call for
an already-liked pair returns false and leaves the store — in particular the
cached likeCount — completely unchanged. -/
theorem like_uniqueness (pid uid qid : Nat) (db : DB) :
    (Reachable db → likeRowsUnique db) ∧
    (projectLikeExists db pid uid = true →
        likeProject pid uid db = (false, db)) ∧
    (postLikeExists db qid uid = true →
        likeCommunityPost qid uid db = (false, db)) := by
  refine ⟨fun h => ⟨(reachable_inv h).likeUniq, (reachable_inv h).postLikeUniq⟩,
    ?_, ?_⟩
  · intro hdup
    simp [likeProject, hdup]
  · intro hdup
    simp [likeCommunityPost, hdup]

/-- Witness for C1: wdb is reachable, its like tables are unique, and a
second like by the same user is refused with no state change. -/
theorem like_uniqueness_check :
    likeRowsUnique wdb ∧ likeProject 0 3 wdb = (false, wdb) :=
  ⟨(like_uniqueness 0 3 1 wdb).1 reachable_wdb,
   (like_uniqueness 0 3 1 wdb).2.1 (by decide)⟩

end SidesHub
